import Mathlib

/-!
Verification of the per-tick combat engine of the r3f battle-royale demo.

The repository ships several near-duplicate variants of one simulation
engine.  The claims under scrutiny cite two of them:

* `src/src/App.tsx` (first variant): a kinematic engine (`useBattleRoyale`)
  with melee damage, storm damage from a shrinking zone, and hp-based death.
* `src/unnamed/part_000`: a physics-backed variant (`useBattleRoyalePhysics`)
  with a push mechanic and wall-touch eliminations queued through
  `pendingElimsRef`.

Both are embedded below.  Numbers are modelled as real numbers; `Math.sqrt`,
`Math.hypot`, `Math.acos` and `Math.atan2` become their `Real` counterparts.
JavaScript's in-place mutation of the `next` array during the per-agent loop
is modelled by threading the roster list through explicit `List.set` updates
in exactly the order the source performs its writes, so aliasing (an agent
targeting itself, in unreachable states) behaves as the reference semantics
would.
-/

open scoped Real

/-- 3-component world-space vector, `[number, number, number]` in the source. -/
structure Vec3 where
  x : ℝ
  y : ℝ
  z : ℝ

/-- `sub(a, b)` from the source utilities. -/
def vsub (a b : Vec3) : Vec3 := ⟨a.x - b.x, a.y - b.y, a.z - b.z⟩

/-- `add(a, b)` from the source utilities. -/
def vadd (a b : Vec3) : Vec3 := ⟨a.x + b.x, a.y + b.y, a.z + b.z⟩

/-- `mul(a, s)` from the source utilities. -/
def smul (a : Vec3) (s : ℝ) : Vec3 := ⟨a.x * s, a.y * s, a.z * s⟩

/-- `dot(a, b)` from the source utilities. -/
def dot3 (a b : Vec3) : ℝ := a.x * b.x + a.y * b.y + a.z * b.z

/-- `clamp(x, a, b) = Math.min(Math.max(x, a), b)`. -/
noncomputable def clamp (x a b : ℝ) : ℝ := min (max x a) b

/-- `len2(x, y, z) = Math.sqrt(x*x + y*y + z*z)`. -/
noncomputable def len2 (x y z : ℝ) : ℝ := Real.sqrt (x * x + y * y + z * z)

/-- `Math.hypot(a, b)` as used by the source (two-argument form). -/
noncomputable def hypot2 (a b : ℝ) : ℝ := Real.sqrt (a * a + b * b)

/-- `norm(x, y, z)`: divide by the length, where a zero length is replaced
by `1` (the JS idiom `len2(x,y,z) || 1`), so the zero vector maps to itself. -/
noncomputable def normv (x y z : ℝ) : Vec3 :=
  let l := len2 x y z
  let d := if l = 0 then 1 else l
  ⟨x / d, y / d, z / d⟩

-- Tunables of the first App.tsx variant (kinematic melee engine).

/-- World-unit arena radius of the melee variant. -/
noncomputable def ARENA_RADIUS : ℝ := 32

/-- Number of agents spawned at round start. -/
def BOT_COUNT : ℕ := 16

/-- Maximum bot speed, u/s. -/
noncomputable def BOT_SPEED : ℝ := 5.2

/-- Maximum bot acceleration, u/s^2. -/
noncomputable def BOT_ACCEL : ℝ := 14

/-- Desired minimal separation between bots. -/
noncomputable def BOT_SEPARATION : ℝ := 2.2

/-- Melee attack range. -/
noncomputable def ATTACK_RANGE : ℝ := 1.6

/-- Melee damage per second. -/
noncomputable def ATTACK_DPS : ℝ := 22

/-- Seconds between successful melee hits of one attacker. -/
noncomputable def ATTACK_COOLDOWN : ℝ := 0.45

/-- Field of view, `Math.PI * 1.1` (about 200 degrees). -/
noncomputable def FOV : ℝ := Real.pi * 1.1

/-- Zone radius at round start. -/
noncomputable def ZONE_START_RADIUS : ℝ := ARENA_RADIUS * 0.95

/-- Zone radius at the end of the shrink. -/
noncomputable def ZONE_END_RADIUS : ℝ := 4

/-- Seconds of end-to-end zone shrink. -/
noncomputable def GAME_DURATION : ℝ := 180

/-- Damage per second taken outside the zone. -/
noncomputable def STORM_DPS : ℝ := 18

/-- Agent record of the kinematic melee variant (`BotState` in App.tsx).
Named `BotS` because `Bot` already means something in Mathlib. -/
structure BotS where
  id : ℕ
  pos : Vec3
  vel : Vec3
  hp : ℝ
  alive : Bool
  lastHitAt : ℝ
  targetId : Option ℕ

/-- `aliveCount = bots.filter((b) => b.alive).length`. -/
def aliveCount (r : List BotS) : ℕ := (r.filter (fun b => b.alive)).length

/-- `winner = aliveCount === 1 ? bots.find((b) => b.alive) ?? null : null`.
When `aliveCount` is `1` the `find` cannot miss, so `?? null` is the
identity on the option. -/
def winner (r : List BotS) : Option BotS :=
  if aliveCount r = 1 then r.find? (fun b => b.alive) else none

/-- Initial roster: `id = i`, full hp, alive, `lastHitAt = -999`, no target;
spawn position supplied externally (randomized in the source), `y = 0`. -/
def initBot (i : ℕ) (px pz : ℝ) : BotS :=
  { id := i, pos := ⟨px, 0, pz⟩, vel := ⟨0, 0, 0⟩, hp := 100, alive := true,
    lastHitAt := -999, targetId := none }

/-- The roster built at round start from a spawn-position choice. -/
def initBots (spawn : ℕ → ℝ × ℝ) : List BotS :=
  (List.range BOT_COUNT).map (fun i => initBot i (spawn i).1 (spawn i).2)

/-- Storm damage applied at the top of an agent's turn:
`if (dFromCenter > zone.radius) me.hp -= STORM_DPS * dt`. -/
noncomputable def stormDamage (dt zoneR : ℝ) (me : BotS) : BotS :=
  if len2 me.pos.x 0 me.pos.z > zoneR then
    { me with hp := me.hp - STORM_DPS * dt }
  else me

/-- Forward heading used in the FOV check:
`me.vel[0] === 0 && me.vel[2] === 0 ? [0,0,1] : norm(me.vel[0],0,me.vel[2])`. -/
noncomputable def forwardOf (vel : Vec3) : Vec3 :=
  if vel.x = 0 ∧ vel.z = 0 then ⟨0, 0, 1⟩ else normv vel.x 0 vel.z

/-- The distance the scan computes for a candidate:
`len2(...sub(other.pos, me.pos))` (full 3D distance). -/
noncomputable def distOf (myPos oPos : Vec3) : ℝ :=
  len2 (vsub oPos myPos).x (vsub oPos myPos).y (vsub oPos myPos).z

/-- The facing angle the scan computes for a candidate:
`Math.acos(clamp(dot(forward, dir), -1, 1))` with `dir` the planar direction
toward the candidate. -/
noncomputable def facingOf (myVel myPos oPos : Vec3) : ℝ :=
  Real.arccos
    (clamp (dot3 (forwardOf myVel)
      (normv (vsub oPos myPos).x 0 (vsub oPos myPos).z)) (-1) 1)

/-- One iteration of the nearest-visible-candidate scan.  `idx` is the array
slot of `other` in the roster; the accumulator keeps the best candidate so
far as (slot, record, distance), `none` playing the part of
`bestDist = Infinity` (a finite distance always beats Infinity). -/
noncomputable def scanStep (me : BotS) (idx : ℕ) (acc : Option (ℕ × BotS × ℝ))
    (other : BotS) : Option (ℕ × BotS × ℝ) :=
  if other.id = me.id ∨ other.alive = false then acc
  else
    match acc with
    | none =>
        if facingOf me.vel me.pos other.pos ≤ FOV * 0.5 then
          some (idx, other, distOf me.pos other.pos)
        else none
    | some (bi, bb, bd) =>
        if facingOf me.vel me.pos other.pos ≤ FOV * 0.5 ∧ distOf me.pos other.pos < bd then
          some (idx, other, distOf me.pos other.pos)
        else some (bi, bb, bd)

/-- The `for (const other of next)` scan, walking the roster with its slot
index and threading the best candidate. -/
noncomputable def scanGo (me : BotS) : List BotS → ℕ → Option (ℕ × BotS × ℝ) →
    Option (ℕ × BotS × ℝ)
  | [], _, acc => acc
  | other :: rest, idx, acc => scanGo me rest (idx + 1) (scanStep me idx acc other)

/-- Target acquisition of one agent: returns the array slot of the chosen
target (the object reference the source keeps in `target`) and the new value
of `me.targetId`.  Sticky validation first: a live `next[me.targetId]` is
kept; otherwise the `targetId` is cleared and the nearest visible candidate
(if any) is picked, storing `best.id`. -/
noncomputable def resolveTarget (r : List BotS) (me : BotS) : Option ℕ × Option ℕ :=
  let scan :=
    match scanGo me r 0 none with
    | some (k, b, _) => (some k, some b.id)
    | none => (none, none)
  match me.targetId with
  | some tj =>
    match r[tj]? with
    | some t => if t.alive then (some tj, some tj) else scan
    | none => scan
  | none => scan

/-- One iteration of the separation accumulation: `(sepX, sepZ, neighbors)`. -/
noncomputable def sepStep (me : BotS) (acc : ℝ × ℝ × ℕ) (other : BotS) : ℝ × ℝ × ℕ :=
  if other.id = me.id ∨ other.alive = false then acc
  else
    let dx := me.pos.x - other.pos.x
    let dz := me.pos.z - other.pos.z
    let d := hypot2 dx dz
    if 0 < d ∧ d < BOT_SEPARATION then
      let f := (BOT_SEPARATION - d) / BOT_SEPARATION
      (acc.1 + dx / d * f, acc.2.1 + dz / d * f, acc.2.2 + 1)
    else acc

/-- The separation loop over the whole roster. -/
noncomputable def separation (r : List BotS) (me : BotS) : ℝ × ℝ × ℕ :=
  r.foldl (sepStep me) (0, 0, 0)

/-- Read an agent position by array slot; the source dereferences a live
object so the missing-slot branch is unreachable (zero is the degenerate
default the physics variants use for missing bodies). -/
def getPosAt (r : List BotS) (k : ℕ) : Vec3 :=
  match r[k]? with
  | some b => b.pos
  | none => ⟨0, 0, 0⟩

/-- Acceleration-limited velocity update: steer the current velocity toward
the speed-scaled desired direction, clamping the (planar) delta magnitude to
`BOT_ACCEL * dt`; the vertical component of the applied delta is zero. -/
noncomputable def accelToward (desired vel : Vec3) (dt : ℝ) : Vec3 :=
  let desiredDir := normv desired.x 0 desired.z
  let targetVel := smul desiredDir BOT_SPEED
  let dv := vsub targetVel vel
  let maxDv := BOT_ACCEL * dt
  let dvLen := hypot2 dv.x dv.z
  let ap := if dvLen > maxDv then smul dv (maxDv / (if dvLen = 0 then 1 else dvLen)) else dv
  vadd vel ⟨ap.x, 0, ap.z⟩

/-- The attack block: if a target slot is held, the (post-integration)
distance is within range and the attacker's cooldown has elapsed, subtract
the damage burst from the target's hp and stamp the attacker's `lastHitAt`.
The re-read of slot `i` after writing slot `j` reproduces the aliasing
behaviour of the mutable array. -/
noncomputable def attackPhase (now : ℝ) (tgt : Option ℕ) (r : List BotS) (i : ℕ) :
    List BotS :=
  match tgt with
  | none => r
  | some j =>
    match r[i]?, r[j]? with
    | some me, some t =>
      if distOf me.pos t.pos ≤ ATTACK_RANGE ∧ now - me.lastHitAt ≥ ATTACK_COOLDOWN then
        let r2 := r.set j { t with hp := t.hp - ATTACK_DPS * ATTACK_COOLDOWN }
        match r2[i]? with
        | some me2 => r2.set i { me2 with lastHitAt := now }
        | none => r2
      else r
    | _, _ => r

/-- The death check ending an agent's turn: `if (me.hp <= 0) me.alive = false`. -/
noncomputable def deathPhase (r : List BotS) (i : ℕ) : List BotS :=
  match r[i]? with
  | some me => if me.hp ≤ 0 then r.set i { me with alive := false } else r
  | none => r

/-- Steering, acceleration and position integration for one agent: seek the
target slot (or drift toward the arena center), perturb by separation, add
the soft arena containment pull, accelerate toward the result, integrate the
position by the new velocity and pin it to the floor.  `r2` is the roster as
it stands when the steering block runs. -/
noncomputable def steerMove (dt : ℝ) (r2 : List BotS) (tgt : Option ℕ) (me2 : BotS) :
    BotS :=
  let desired0 : Vec3 :=
    match tgt with
    | some k => vsub (getPosAt r2 k) me2.pos
    | none => smul (normv (-me2.pos.x) 0 (-me2.pos.z)) 1
  let s := separation r2 me2
  let desired1 := if 0 < s.2.2 then vadd desired0 ⟨s.1, 0, s.2.1⟩ else desired0
  let radial := len2 me2.pos.x 0 me2.pos.z
  let desired2 :=
    if radial > ARENA_RADIUS * 0.9 then
      vadd desired1 (smul (normv (-me2.pos.x) 0 (-me2.pos.z)) 2.5)
    else desired1
  let vel2 := accelToward desired2 me2.vel dt
  let posI := vadd me2.pos (smul vel2 dt)
  { me2 with vel := vel2, pos := ⟨posI.x, 0, posI.z⟩ }

/-- Target acquisition as one turn performs it: on the roster already holding
the storm-damaged agent record (the in-place write is visible to the reads). -/
noncomputable def turnRes (dt zoneR : ℝ) (r : List BotS) (i : ℕ) (me0 : BotS) :
    Option ℕ × Option ℕ :=
  resolveTarget (r.set i (stormDamage dt zoneR me0)) (stormDamage dt zoneR me0)

/-- The agent record after storm damage and target bookkeeping. -/
noncomputable def turnMe2 (dt zoneR : ℝ) (r : List BotS) (i : ℕ) (me0 : BotS) : BotS :=
  { stormDamage dt zoneR me0 with targetId := (turnRes dt zoneR r i me0).2 }

/-- The agent record after steering and integration; the steering block reads
the roster that already holds the updated target bookkeeping. -/
noncomputable def turnMe4 (dt zoneR : ℝ) (r : List BotS) (i : ℕ) (me0 : BotS) : BotS :=
  steerMove dt (r.set i (turnMe2 dt zoneR r i me0)) (turnRes dt zoneR r i me0).1
    (turnMe2 dt zoneR r i me0)

/-- The whole per-agent turn of the kinematic melee engine (loop body of
`useFrame` in the first App.tsx variant), acting on the live roster: storm
damage, target validation/selection, steering and integration (successive
in-place writes to slot `i` collapse into the single final write), then the
attack block against the post-integration positions, then the death check. -/
noncomputable def stepAgent (dt now zoneR : ℝ) (r : List BotS) (i : ℕ) : List BotS :=
  match r[i]? with
  | none => r
  | some me0 =>
    if me0.alive = false then r
    else
      deathPhase
        (attackPhase now (turnRes dt zoneR r i me0).1
          (r.set i (turnMe4 dt zoneR r i me0)) i) i

/-- Run the per-agent turns in an explicitly given slot order. -/
noncomputable def tickOrder (dt now zoneR : ℝ) (order : List ℕ) (r : List BotS) :
    List BotS :=
  order.foldl (stepAgent dt now zoneR) r

/-- One simulation tick: `for (const me of next)` walks the roster slots in
ascending order. -/
noncomputable def tick (dt now zoneR : ℝ) (r : List BotS) : List BotS :=
  tickOrder dt now zoneR (List.range r.length) r

/-- Zone bookkeeping at the top of a frame: advance the clamped elapsed time
and linearly interpolate the radius. -/
noncomputable def zoneAdvance (t dt : ℝ) : ℝ × ℝ :=
  let t2 := clamp (t + dt) 0 GAME_DURATION
  let k := t2 / GAME_DURATION
  (t2, ZONE_START_RADIUS * (1 - k) + ZONE_END_RADIUS * k)

/-- One whole `useFrame` callback: zone shrink, then the agent loop. -/
noncomputable def frame (dt now : ℝ) (s : ℝ × List BotS) : ℝ × List BotS :=
  let z := zoneAdvance s.1 dt
  (z.1, tick dt now z.2 s.2)

/-- A run of consecutive frames, fed the per-frame `(dt, now)` pairs. -/
noncomputable def frames (ps : List (ℝ × ℝ)) (s : ℝ × List BotS) : ℝ × List BotS :=
  ps.foldl (fun acc p => frame p.1 p.2 acc) s

-- The wall-touch push variant of src/unnamed/part_000.  Poses live in the
-- external physics engine: `getPos`/`getVel` read the rigid bodies, keyed by
-- agent id, and `setLinvel`/`applyImpulse` are commands to it.  Positions do
-- not move during a frame, so they enter as a fixed map; each agent's
-- velocity is read exactly once (at the top of its own turn), so an
-- arbitrary velocity map covers every behaviour of the external engine,
-- impulses included.

/-- Distance that triggers a push. -/
noncomputable def PUSH_RANGE : ℝ := 1.3

/-- Seconds between pushes of one attacker. -/
noncomputable def PUSH_COOLDOWN : ℝ := 0.4

/-- Impulse magnitude of a push (consumed by the external engine). -/
noncomputable def PUSH_IMPULSE : ℝ := 5.5

/-- Agent record of the push variant (`BotState` in part_000). -/
structure PBot where
  id : ℕ
  alive : Bool
  lastPushAt : ℝ
  targetId : Option ℕ

/-- One queued wall-touch elimination: a queued id naming a live agent is
flipped to dead (the rigidbody disabling is an external command); anything
else, dead or out of range, is a no-op. -/
def elimOne (acc : List PBot) (i : ℕ) : List PBot :=
  match acc[i]? with
  | some b => if b.alive then acc.set i { b with alive := false } else acc
  | none => acc

/-- Applying the queued wall-touch eliminations at the top of a frame. -/
def applyElims (elims : List ℕ) (r : List PBot) : List PBot :=
  elims.foldl elimOne r

/-- Candidate scan of the push variant; identical FOV logic, with candidate
positions read from the physics bodies by id. -/
noncomputable def pScanStep (pos : ℕ → Vec3) (myPos myVel : Vec3) (meId : ℕ)
    (idx : ℕ) (acc : Option (ℕ × PBot × ℝ)) (other : PBot) : Option (ℕ × PBot × ℝ) :=
  if other.id = meId ∨ other.alive = false then acc
  else
    match acc with
    | none =>
        if facingOf myVel myPos (pos other.id) ≤ FOV * 0.5 then
          some (idx, other, distOf myPos (pos other.id))
        else none
    | some (bi, bb, bd) =>
        if facingOf myVel myPos (pos other.id) ≤ FOV * 0.5 ∧
            distOf myPos (pos other.id) < bd then
          some (idx, other, distOf myPos (pos other.id))
        else some (bi, bb, bd)

/-- The scan loop of the push variant. -/
noncomputable def pScanGo (pos : ℕ → Vec3) (myPos myVel : Vec3) (meId : ℕ) :
    List PBot → ℕ → Option (ℕ × PBot × ℝ) → Option (ℕ × PBot × ℝ)
  | [], _, acc => acc
  | other :: rest, idx, acc =>
      pScanGo pos myPos myVel meId rest (idx + 1)
        (pScanStep pos myPos myVel meId idx acc other)

/-- Target acquisition of the push variant: returns the id of the held
target reference (later dereferenced as `target.id`) and the new
`me.targetId` field. -/
noncomputable def pResolveTarget (pos : ℕ → Vec3) (myPos myVel : Vec3)
    (r : List PBot) (me : PBot) : Option ℕ × Option ℕ :=
  let scan :=
    match pScanGo pos myPos myVel me.id r 0 none with
    | some (_, b, _) => (some b.id, some b.id)
    | none => (none, none)
  match me.targetId with
  | some tj =>
    match r[tj]? with
    | some t => if t.alive then (some t.id, some tj) else scan
    | none => scan
  | none => scan

/-- The per-agent turn of the push variant.  The steering block only emits a
`setLinvel` command to the external engine (no roster field changes), so the
roster-visible effects are the target bookkeeping and the push cooldown
stamp; the impulse itself is likewise an external command. -/
noncomputable def pushStepAgent (now : ℝ) (pos vel : ℕ → Vec3) (r : List PBot)
    (i : ℕ) : List PBot :=
  match r[i]? with
  | none => r
  | some me0 =>
    if me0.alive = false then r
    else
      let myPos := pos me0.id
      let myVel := vel me0.id
      let pr := pResolveTarget pos myPos myVel r me0
      let me2 := { me0 with targetId := pr.2 }
      let r2 := r.set i me2
      match pr.1 with
      | none => r2
      | some tid =>
        if distOf myPos (pos tid) ≤ PUSH_RANGE ∧ now - me2.lastPushAt ≥ PUSH_COOLDOWN then
          match r2[i]? with
          | some me3 => r2.set i { me3 with lastPushAt := now }
          | none => r2
        else r2

/-- One `useFrame` tick of the push variant: apply the queued eliminations
coherently, then run every agent's turn in ascending slot order. -/
noncomputable def pushTick (now : ℝ) (pos vel : ℕ → Vec3) (elims : List ℕ)
    (r : List PBot) : List PBot :=
  let r0 := applyElims elims r
  (List.range r0.length).foldl (pushStepAgent now pos vel) r0

-- Round state tracker (claim C1).

/-- A filter with exactly one survivor pins down `find?` and uniqueness. -/
theorem filter_singleton_spec {α : Type} (p : α → Bool) (r : List α) (b : α)
    (h : r.filter p = [b]) :
    r.find? p = some b ∧ b ∈ r ∧ p b = true ∧ ∀ c ∈ r, p c = true → c = b := by
  induction r with
  | nil => simp at h
  | cons a t ih =>
    by_cases hpa : p a = true
    · rw [List.filter_cons, if_pos hpa] at h
      obtain ⟨rfl, hft⟩ : a = b ∧ t.filter p = [] := by
        constructor
        · exact (List.cons_eq_cons.mp h).1
        · exact (List.cons_eq_cons.mp h).2
      refine ⟨by simp [List.find?_cons, hpa], by simp, hpa, ?_⟩
      intro c hc hpc
      rcases List.mem_cons.mp hc with rfl | hct
      · rfl
      · exact absurd (List.mem_filter.mpr ⟨hct, hpc⟩) (by simp [hft])
    · rw [List.filter_cons, if_neg hpa] at h
      obtain ⟨hfind, hmem, hpb, huniq⟩ := ih h
      refine ⟨?_, List.mem_cons_of_mem _ hmem, hpb, ?_⟩
      · have hpa2 : p a = false := by
          cases hpe : p a
          · rfl
          · exact absurd hpe hpa
        simp [List.find?_cons, hpa2, hfind]
      · intro c hc hpc
        rcases List.mem_cons.mp hc with rfl | hct
        · exact absurd hpc hpa
        · exact huniq c hct hpc

/-- C1: for every roster state, `winner` is the unique alive agent exactly
when the count of agents with `alive = true` equals one, and is `none`
whenever the alive count differs from one — including the zero-alive draw,
where the derivation still totals and simply reports no winner. -/
theorem winner_iff_unique_alive (r : List BotS) :
    (aliveCount r = 1 →
      ∃ b, winner r = some b ∧ b ∈ r ∧ b.alive = true ∧
        ∀ c ∈ r, c.alive = true → c = b)
  ∧ (aliveCount r ≠ 1 → winner r = none) := by
  constructor
  · intro h1
    obtain ⟨b, hb⟩ := List.length_eq_one.mp h1
    obtain ⟨hfind, hmem, hpb, huniq⟩ := filter_singleton_spec _ r b hb
    exact ⟨b, by simp [winner, h1, hfind], hmem, hpb, huniq⟩
  · intro h1
    simp [winner, h1]

/-- A tiny concrete roster with exactly one alive agent. -/
def oneAliveDemo : List BotS :=
  [initBot 0 1 2, { initBot 1 3 4 with alive := false }]

/-- Concrete instance of the winner derivation on `oneAliveDemo`. -/
theorem winner_iff_unique_alive_witness :
    aliveCount oneAliveDemo = 1 ∧
      ∃ b, winner oneAliveDemo = some b ∧ b ∈ oneAliveDemo ∧ b.alive = true ∧
        ∀ c ∈ oneAliveDemo, c.alive = true → c = b :=
  ⟨rfl, (winner_iff_unique_alive oneAliveDemo).1 rfl⟩

-- Structural lemmas about one agent turn.

@[simp]
theorem stormDamage_id (dt z : ℝ) (me : BotS) : (stormDamage dt z me).id = me.id := by
  unfold stormDamage; split <;> rfl

@[simp]
theorem stormDamage_alive (dt z : ℝ) (me : BotS) :
    (stormDamage dt z me).alive = me.alive := by
  unfold stormDamage; split <;> rfl

@[simp]
theorem stormDamage_vel (dt z : ℝ) (me : BotS) : (stormDamage dt z me).vel = me.vel := by
  unfold stormDamage; split <;> rfl

@[simp]
theorem stormDamage_pos (dt z : ℝ) (me : BotS) : (stormDamage dt z me).pos = me.pos := by
  unfold stormDamage; split <;> rfl

@[simp]
theorem stormDamage_lastHitAt (dt z : ℝ) (me : BotS) :
    (stormDamage dt z me).lastHitAt = me.lastHitAt := by
  unfold stormDamage; split <;> rfl

@[simp]
theorem stormDamage_targetId (dt z : ℝ) (me : BotS) :
    (stormDamage dt z me).targetId = me.targetId := by
  unfold stormDamage; split <;> rfl

/-- The FOV visibility test exactly as the scan computes it: the angle from
the forward heading to the planar direction toward the candidate is at most
half the field of view. -/
noncomputable def visibleCond (me other : BotS) : Prop :=
  facingOf me.vel me.pos other.pos ≤ FOV * 0.5

/-- Any candidate accepted by one scan iteration is alive, is not the
scanning agent, and passed the FOV test. -/
theorem scanStep_sound (me : BotS) (idx : ℕ) (acc : Option (ℕ × BotS × ℝ))
    (other : BotS) (k : ℕ) (b : BotS) (d : ℝ)
    (h : scanStep me idx acc other = some (k, b, d)) :
    acc = some (k, b, d) ∨
      (k = idx ∧ b = other ∧ other.alive = true ∧ other.id ≠ me.id ∧
        visibleCond me other) := by
  unfold scanStep at h
  split at h
  · exact Or.inl h
  · rename_i hskip
    push_neg at hskip
    split at h
    · split at h
      · simp only [Option.some.injEq, Prod.mk.injEq] at h
        exact Or.inr ⟨h.1.symm, h.2.1.symm, by simpa using hskip.2, hskip.1,
          by assumption⟩
      · simp at h
    · split at h
      · simp only [Option.some.injEq, Prod.mk.injEq] at h
        rename_i hcond
        exact Or.inr ⟨h.1.symm, h.2.1.symm, by simpa using hskip.2, hskip.1, hcond.1⟩
      · exact Or.inl h

/-- Soundness of the whole scan: a returned candidate either was already in
the accumulator or sits in the scanned list at the slot the result names,
is alive, is not the scanner, and passed the FOV test. -/
theorem scanGo_sound (me : BotS) (l : List BotS) (idx : ℕ)
    (acc : Option (ℕ × BotS × ℝ)) (k : ℕ) (b : BotS) (d : ℝ)
    (h : scanGo me l idx acc = some (k, b, d)) :
    acc = some (k, b, d) ∨
      (∃ off, l[off]? = some b ∧ k = idx + off ∧ b.alive = true ∧
        b.id ≠ me.id ∧ visibleCond me b) := by
  induction l generalizing idx acc with
  | nil => exact Or.inl h
  | cons o rest ih =>
    rcases ih (idx + 1) (scanStep me idx acc o) h with hacc | ⟨off, h1, h2, h3, h4, h5⟩
    · rcases scanStep_sound me idx acc o k b d hacc with h0 | ⟨hk, hb, ha, hid, hv⟩
      · exact Or.inl h0
      · subst hk; subst hb
        exact Or.inr ⟨0, by simp, by simp, ha, hid, hv⟩
    · exact Or.inr ⟨off + 1, by simpa using h1, by omega, h3, h4, h5⟩

/-- Case analysis for target acquisition: no target, sticky target kept, or
freshly scanned target. -/
theorem resolveTarget_cases (r : List BotS) (me : BotS) :
    resolveTarget r me = (none, none) ∨
    (∃ tj t, me.targetId = some tj ∧ r[tj]? = some t ∧ t.alive = true ∧
      resolveTarget r me = (some tj, some tj)) ∨
    (∃ k b d, scanGo me r 0 none = some (k, b, d) ∧
      resolveTarget r me = (some k, some b.id)) := by
  cases htid : me.targetId with
  | none =>
    cases hscan : scanGo me r 0 none with
    | none => exact Or.inl (by simp [resolveTarget, htid, hscan])
    | some p =>
      exact Or.inr (Or.inr ⟨p.1, p.2.1, p.2.2, by simp [hscan],
        by simp [resolveTarget, htid, hscan]⟩)
  | some tj =>
    cases hget : r[tj]? with
    | none =>
      cases hscan : scanGo me r 0 none with
      | none => exact Or.inl (by simp [resolveTarget, htid, hget, hscan])
      | some p =>
        exact Or.inr (Or.inr ⟨p.1, p.2.1, p.2.2, by simp [hscan],
          by simp [resolveTarget, htid, hget, hscan]⟩)
    | some t =>
      by_cases ht : t.alive = true
      · exact Or.inr (Or.inl ⟨tj, t, rfl, hget, ht,
          by simp [resolveTarget, htid, hget, ht]⟩)
      · have ht2 : t.alive = false := by
          cases hta : t.alive
          · rfl
          · exact absurd hta ht
        cases hscan : scanGo me r 0 none with
        | none => exact Or.inl (by simp [resolveTarget, htid, hget, ht2, hscan])
        | some p =>
          exact Or.inr (Or.inr ⟨p.1, p.2.1, p.2.2, by simp [hscan],
            by simp [resolveTarget, htid, hget, ht2, hscan]⟩)

/-- Whenever target acquisition returns a slot reference, that slot holds a
live agent. -/
theorem resolveTarget_slot_alive (r : List BotS) (me : BotS) (k : ℕ)
    (h : (resolveTarget r me).1 = some k) :
    ∃ t, r[k]? = some t ∧ t.alive = true := by
  rcases resolveTarget_cases r me with h0 | ⟨tj, t, _, hget, ha, heq⟩ | ⟨k2, b, d, hscan, heq⟩
  · rw [h0] at h; simp at h
  · rw [heq] at h
    simp only [Option.some.injEq] at h
    exact ⟨t, h ▸ hget, ha⟩
  · rw [heq] at h
    simp only [Option.some.injEq] at h
    rcases scanGo_sound me r 0 none k2 b d hscan with h0 | ⟨off, h1, h2, h3, _, _⟩
    · simp at h0
    · refine ⟨b, ?_, h3⟩
      rw [← h, h2]
      simpa using h1

/-- A successful indexed read implies the index is within bounds. -/
theorem getq_lt {α : Type} {l : List α} {k : ℕ} {a : α} (h : l[k]? = some a) :
    k < l.length := by
  by_contra hk
  push_neg at hk
  rw [List.getElem?_eq_none hk] at h
  cases h

/-- The damage burst applied to a struck target. -/
noncomputable def struck (t : BotS) : BotS :=
  { t with hp := t.hp - ATTACK_DPS * ATTACK_COOLDOWN }

theorem attackPhase_no_tgt (now : ℝ) (r : List BotS) (i : ℕ) :
    attackPhase now none r i = r := rfl

theorem attackPhase_no_me (now : ℝ) (r : List BotS) (i j : ℕ) (hi : r[i]? = none) :
    attackPhase now (some j) r i = r := by
  unfold attackPhase
  dsimp only
  rw [hi]

theorem attackPhase_no_t (now : ℝ) (r : List BotS) (i j : ℕ) (hj : r[j]? = none) :
    attackPhase now (some j) r i = r := by
  unfold attackPhase
  dsimp only
  rw [hj]
  cases r[i]? <;> rfl

theorem attackPhase_miss (now : ℝ) (r : List BotS) (i j : ℕ) (me t : BotS)
    (hi : r[i]? = some me) (hj : r[j]? = some t)
    (hg : ¬(distOf me.pos t.pos ≤ ATTACK_RANGE ∧ now - me.lastHitAt ≥ ATTACK_COOLDOWN)) :
    attackPhase now (some j) r i = r := by
  unfold attackPhase
  dsimp only
  rw [hi, hj]
  dsimp only
  rw [if_neg hg]

theorem attackPhase_hit_self (now : ℝ) (r : List BotS) (i : ℕ) (me : BotS)
    (hi : r[i]? = some me)
    (hg : distOf me.pos me.pos ≤ ATTACK_RANGE ∧ now - me.lastHitAt ≥ ATTACK_COOLDOWN) :
    attackPhase now (some i) r i = r.set i { struck me with lastHitAt := now } := by
  unfold attackPhase
  dsimp only
  rw [hi]
  dsimp only
  rw [if_pos hg]
  have h2 : (r.set i { me with hp := me.hp - ATTACK_DPS * ATTACK_COOLDOWN })[i]? =
      some (struck me) :=
    List.getElem?_set_self (by simpa using getq_lt hi)
  rw [h2]
  dsimp only
  rw [List.set_set]

theorem attackPhase_hit (now : ℝ) (r : List BotS) (i j : ℕ) (me t : BotS)
    (hji : j ≠ i) (hi : r[i]? = some me) (hj : r[j]? = some t)
    (hg : distOf me.pos t.pos ≤ ATTACK_RANGE ∧ now - me.lastHitAt ≥ ATTACK_COOLDOWN) :
    attackPhase now (some j) r i =
      (r.set j (struck t)).set i { me with lastHitAt := now } := by
  unfold attackPhase
  dsimp only
  rw [hi, hj]
  dsimp only
  rw [if_pos hg]
  have h2 : (r.set j { t with hp := t.hp - ATTACK_DPS * ATTACK_COOLDOWN })[i]? =
      some me := by
    rw [List.getElem?_set_ne hji]
    exact hi
  rw [h2]
  rfl

theorem deathPhase_no_me (r : List BotS) (i : ℕ) (hi : r[i]? = none) :
    deathPhase r i = r := by
  unfold deathPhase
  rw [hi]

theorem deathPhase_live (r : List BotS) (i : ℕ) (me : BotS) (hi : r[i]? = some me)
    (hhp : ¬ me.hp ≤ 0) : deathPhase r i = r := by
  unfold deathPhase
  rw [hi]
  dsimp only
  rw [if_neg hhp]

theorem deathPhase_dead (r : List BotS) (i : ℕ) (me : BotS) (hi : r[i]? = some me)
    (hhp : me.hp ≤ 0) : deathPhase r i = r.set i { me with alive := false } := by
  unfold deathPhase
  rw [hi]
  dsimp only
  rw [if_pos hhp]

/-- Per-slot effect bundle of the attack block. -/
def atkRel (now : ℝ) (i k : ℕ) (b c : BotS) : Prop :=
  c.id = b.id ∧ c.alive = b.alive ∧ c.vel = b.vel ∧ c.pos = b.pos ∧
  c.targetId = b.targetId ∧
  (c.lastHitAt = b.lastHitAt ∨
    (k = i ∧ c.lastHitAt = now ∧ now - b.lastHitAt ≥ ATTACK_COOLDOWN))

theorem atkRel_refl (now : ℝ) (i k : ℕ) (b : BotS) : atkRel now i k b b :=
  ⟨rfl, rfl, rfl, rfl, rfl, Or.inl rfl⟩

/-- Per-slot effect bundle of the death check. -/
def deathRel (i k : ℕ) (b c : BotS) : Prop :=
  c.id = b.id ∧ c.hp = b.hp ∧ c.vel = b.vel ∧ c.pos = b.pos ∧
  c.targetId = b.targetId ∧ c.lastHitAt = b.lastHitAt ∧
  (c.alive = b.alive ∨ (k = i ∧ c.alive = false ∧ b.hp ≤ 0))

theorem deathRel_refl (i k : ℕ) (b : BotS) : deathRel i k b b :=
  ⟨rfl, rfl, rfl, rfl, rfl, rfl, Or.inl rfl⟩

/-- Per-slot effect bundle of one whole agent turn. -/
def stepRel (now : ℝ) (i k : ℕ) (b c : BotS) : Prop :=
  c.id = b.id ∧ (c.alive = true → b.alive = true) ∧
  (c.lastHitAt = b.lastHitAt ∨
    (k = i ∧ c.lastHitAt = now ∧ now - b.lastHitAt ≥ ATTACK_COOLDOWN)) ∧
  (k ≠ i → c.alive = b.alive ∧ c.vel = b.vel ∧ c.pos = b.pos ∧
    c.targetId = b.targetId ∧ c.lastHitAt = b.lastHitAt)

theorem stepRel_refl (now : ℝ) (i k : ℕ) (b : BotS) : stepRel now i k b b :=
  ⟨rfl, fun h => h, Or.inl rfl, fun _ => ⟨rfl, rfl, rfl, rfl, rfl⟩⟩

/-- Reading back after a single-slot write. -/
theorem set_slot_spec (r : List BotS) (i : ℕ) (v : BotS) (k : ℕ) (b : BotS)
    (hk : r[k]? = some b) :
    ∃ c, (r.set i v)[k]? = some c ∧ ((k = i ∧ c = v) ∨ (k ≠ i ∧ c = b)) := by
  by_cases hki : k = i
  · subst hki
    exact ⟨v, List.getElem?_set_self (getq_lt hk), Or.inl ⟨rfl, rfl⟩⟩
  · exact ⟨b, by rw [List.getElem?_set_ne (by omega)]; exact hk, Or.inr ⟨hki, rfl⟩⟩

/-- Effect of the attack block on every slot: ids, liveness, motion state and
target bookkeeping are untouched everywhere; only the attacker's `lastHitAt`
can change, and only to `now` with its cooldown having elapsed. -/
theorem attackPhase_spec (now : ℝ) (tgt : Option ℕ) (r : List BotS) (i : ℕ) :
    (attackPhase now tgt r i).length = r.length ∧
    ∀ k b, r[k]? = some b →
      ∃ c, (attackPhase now tgt r i)[k]? = some c ∧ atkRel now i k b c := by
  cases tgt with
  | none =>
    rw [attackPhase_no_tgt]
    exact ⟨rfl, fun k b hk => ⟨b, hk, atkRel_refl now i k b⟩⟩
  | some j =>
    cases hi : r[i]? with
    | none =>
      rw [attackPhase_no_me now r i j hi]
      exact ⟨rfl, fun k b hk => ⟨b, hk, atkRel_refl now i k b⟩⟩
    | some me =>
      cases hj : r[j]? with
      | none =>
        rw [attackPhase_no_t now r i j hj]
        exact ⟨rfl, fun k b hk => ⟨b, hk, atkRel_refl now i k b⟩⟩
      | some t =>
        by_cases hg : distOf me.pos t.pos ≤ ATTACK_RANGE ∧
            now - me.lastHitAt ≥ ATTACK_COOLDOWN
        · by_cases hji : j = i
          · subst hji
            have hmt : me = t := by rw [hi] at hj; exact Option.some.inj hj
            subst hmt
            rw [attackPhase_hit_self now r j me hi hg]
            refine ⟨by simp, fun k b hk => ?_⟩
            obtain ⟨c, hc, hcase⟩ :=
              set_slot_spec r j { struck me with lastHitAt := now } k b hk
            refine ⟨c, hc, ?_⟩
            rcases hcase with ⟨hkj, hceq⟩ | ⟨hkj, hceq⟩
            · subst hkj
              have hbme : b = me := by rw [hi] at hk; exact (Option.some.inj hk).symm
              rw [hceq, hbme]
              exact ⟨rfl, rfl, rfl, rfl, rfl, Or.inr ⟨rfl, rfl, hg.2⟩⟩
            · rw [hceq]
              exact atkRel_refl now j k b
          · rw [attackPhase_hit now r i j me t hji hi hj hg]
            have hlen : ((r.set j (struck t)).set i { me with lastHitAt := now }).length
                = r.length := by simp
            refine ⟨hlen, fun k b hk => ?_⟩
            obtain ⟨c1, hc1, hcase1⟩ := set_slot_spec r j (struck t) k b hk
            obtain ⟨c2, hc2, hcase2⟩ :=
              set_slot_spec (r.set j (struck t)) i { me with lastHitAt := now } k c1 hc1
            refine ⟨c2, hc2, ?_⟩
            rcases hcase2 with ⟨hki, hceq2⟩ | ⟨hki, hceq2⟩
            · subst hki
              have hbme : b = me := by rw [hi] at hk; exact (Option.some.inj hk).symm
              rw [hceq2, hbme]
              exact ⟨rfl, rfl, rfl, rfl, rfl, Or.inr ⟨rfl, rfl, hg.2⟩⟩
            · rcases hcase1 with ⟨hkj, hceq1⟩ | ⟨hkj, hceq1⟩
              · subst hkj
                have hbt : b = t := by rw [hj] at hk; exact (Option.some.inj hk).symm
                rw [hceq2, hceq1, hbt]
                exact ⟨rfl, rfl, rfl, rfl, rfl, Or.inl rfl⟩
              · rw [hceq2, hceq1]
                exact atkRel_refl now i k b
        · rw [attackPhase_miss now r i j me t hi hj hg]
          exact ⟨rfl, fun k b hk => ⟨b, hk, atkRel_refl now i k b⟩⟩

/-- Effect of the death check on every slot: everything is preserved except
that the checked agent's `alive` may flip to `false`, and only when its raw
(unclamped) hp is at most zero. -/
theorem deathPhase_spec (r : List BotS) (i : ℕ) :
    (deathPhase r i).length = r.length ∧
    ∀ k b, r[k]? = some b →
      ∃ c, (deathPhase r i)[k]? = some c ∧ deathRel i k b c := by
  cases hi : r[i]? with
  | none =>
    rw [deathPhase_no_me r i hi]
    exact ⟨rfl, fun k b hk => ⟨b, hk, deathRel_refl i k b⟩⟩
  | some me =>
    by_cases hhp : me.hp ≤ 0
    · rw [deathPhase_dead r i me hi hhp]
      refine ⟨by simp, fun k b hk => ?_⟩
      obtain ⟨c, hc, hcase⟩ := set_slot_spec r i { me with alive := false } k b hk
      refine ⟨c, hc, ?_⟩
      rcases hcase with ⟨hki, hceq⟩ | ⟨hki, hceq⟩
      · subst hki
        have hbme : b = me := by rw [hi] at hk; exact (Option.some.inj hk).symm
        rw [hceq, hbme]
        exact ⟨rfl, rfl, rfl, rfl, rfl, rfl, Or.inr ⟨rfl, rfl, hhp⟩⟩
      · rw [hceq]
        exact deathRel_refl i k b
    · rw [deathPhase_live r i me hi hhp]
      exact ⟨rfl, fun k b hk => ⟨b, hk, deathRel_refl i k b⟩⟩

@[simp]
theorem steerMove_id (dt : ℝ) (r2 : List BotS) (tgt : Option ℕ) (me2 : BotS) :
    (steerMove dt r2 tgt me2).id = me2.id := rfl

@[simp]
theorem steerMove_alive (dt : ℝ) (r2 : List BotS) (tgt : Option ℕ) (me2 : BotS) :
    (steerMove dt r2 tgt me2).alive = me2.alive := rfl

@[simp]
theorem steerMove_hp (dt : ℝ) (r2 : List BotS) (tgt : Option ℕ) (me2 : BotS) :
    (steerMove dt r2 tgt me2).hp = me2.hp := rfl

@[simp]
theorem steerMove_lastHitAt (dt : ℝ) (r2 : List BotS) (tgt : Option ℕ) (me2 : BotS) :
    (steerMove dt r2 tgt me2).lastHitAt = me2.lastHitAt := rfl

@[simp]
theorem steerMove_targetId (dt : ℝ) (r2 : List BotS) (tgt : Option ℕ) (me2 : BotS) :
    (steerMove dt r2 tgt me2).targetId = me2.targetId := rfl

@[simp]
theorem turnMe4_id (dt z : ℝ) (r : List BotS) (i : ℕ) (me0 : BotS) :
    (turnMe4 dt z r i me0).id = me0.id := by
  simp [turnMe4, turnMe2]

@[simp]
theorem turnMe4_alive (dt z : ℝ) (r : List BotS) (i : ℕ) (me0 : BotS) :
    (turnMe4 dt z r i me0).alive = me0.alive := by
  simp [turnMe4, turnMe2]

@[simp]
theorem turnMe4_lastHitAt (dt z : ℝ) (r : List BotS) (i : ℕ) (me0 : BotS) :
    (turnMe4 dt z r i me0).lastHitAt = me0.lastHitAt := by
  simp [turnMe4, turnMe2]

theorem stepAgent_no_me (dt now z : ℝ) (r : List BotS) (i : ℕ) (hi : r[i]? = none) :
    stepAgent dt now z r i = r := by
  unfold stepAgent
  rw [hi]

theorem stepAgent_of_dead (dt now z : ℝ) (r : List BotS) (i : ℕ) (me0 : BotS)
    (hi : r[i]? = some me0) (ha : me0.alive = false) :
    stepAgent dt now z r i = r := by
  unfold stepAgent
  rw [hi]
  dsimp only
  rw [if_pos ha]

theorem stepAgent_live (dt now z : ℝ) (r : List BotS) (i : ℕ) (me0 : BotS)
    (hi : r[i]? = some me0) (ha : me0.alive = true) :
    stepAgent dt now z r i =
      deathPhase
        (attackPhase now (turnRes dt z r i me0).1
          (r.set i (turnMe4 dt z r i me0)) i) i := by
  unfold stepAgent
  rw [hi]
  dsimp only
  rw [if_neg (by simp [ha])]

/-- Master per-slot effect of one whole agent turn: ids are stable, liveness
only ever decays, the attacker's cooldown stamp moves only to `now` with the
cooldown elapsed, and every slot other than the acting agent's keeps its
liveness, motion state, target and stamp (only its hp may change, by being
struck). -/
theorem stepAgent_spec (dt now z : ℝ) (r : List BotS) (i : ℕ) :
    (stepAgent dt now z r i).length = r.length ∧
    ∀ k b, r[k]? = some b →
      ∃ c, (stepAgent dt now z r i)[k]? = some c ∧ stepRel now i k b c := by
  cases hi : r[i]? with
  | none =>
    rw [stepAgent_no_me dt now z r i hi]
    exact ⟨rfl, fun k b hk => ⟨b, hk, stepRel_refl now i k b⟩⟩
  | some me0 =>
    by_cases ha : me0.alive = false
    · rw [stepAgent_of_dead dt now z r i me0 hi ha]
      exact ⟨rfl, fun k b hk => ⟨b, hk, stepRel_refl now i k b⟩⟩
    · have ha2 : me0.alive = true := by
        cases hav : me0.alive
        · exact absurd hav ha
        · rfl
      rw [stepAgent_live dt now z r i me0 hi ha2]
      obtain ⟨alen, aspec⟩ :=
        attackPhase_spec now (turnRes dt z r i me0).1 (r.set i (turnMe4 dt z r i me0)) i
      obtain ⟨dlen, dspec⟩ :=
        deathPhase_spec (attackPhase now (turnRes dt z r i me0).1
          (r.set i (turnMe4 dt z r i me0)) i) i
      refine ⟨by rw [dlen, alen]; simp, fun k b hk => ?_⟩
      obtain ⟨c1, hc1, hcase1⟩ := set_slot_spec r i (turnMe4 dt z r i me0) k b hk
      obtain ⟨c2, hc2, hrel2⟩ := aspec k c1 hc1
      obtain ⟨c3, hc3, hrel3⟩ := dspec k c2 hc2
      refine ⟨c3, hc3, ?_⟩
      obtain ⟨a_id, a_alive, a_vel, a_pos, a_tid, a_last⟩ := hrel2
      obtain ⟨d_id, d_hp, d_vel, d_pos, d_tid, d_last, d_alive⟩ := hrel3
      rcases hcase1 with ⟨hki, hceq⟩ | ⟨hki, hceq⟩
      · subst hki
        have hbme : b = me0 := by rw [hi] at hk; exact (Option.some.inj hk).symm
        subst hceq
        refine ⟨?_, ?_, ?_, ?_⟩
        · rw [d_id, a_id, hbme]; simp
        · intro _
          rw [hbme]; exact ha2
        · rcases d_alive with _ | ⟨hkk, _, _⟩
          · rcases a_last with h1 | ⟨_, h2, h3⟩
            · exact Or.inl (by rw [d_last, h1, hbme]; simp)
            · exact Or.inr ⟨rfl, by rw [d_last, h2], by
                rw [hbme]
                simpa using h3⟩
          · rcases a_last with h1 | ⟨_, h2, h3⟩
            · exact Or.inl (by rw [d_last, h1, hbme]; simp)
            · exact Or.inr ⟨rfl, by rw [d_last, h2], by
                rw [hbme]
                simpa using h3⟩
        · intro hcon
          exact absurd rfl hcon
      · subst hceq
        refine ⟨by rw [d_id, a_id], ?_, ?_, ?_⟩
        · intro h3
          rcases d_alive with h4 | ⟨hkk, _, _⟩
          · rw [h4, a_alive] at h3; exact h3
          · exact absurd hkk hki
        · rcases a_last with h1 | ⟨hkk, _, _⟩
          · exact Or.inl (by rw [d_last, h1])
          · exact absurd hkk hki
        · intro _
          rcases d_alive with h4 | ⟨hkk, _, _⟩
          · rcases a_last with h1 | ⟨hkk, _, _⟩
            · exact ⟨by rw [h4, a_alive], by rw [d_vel, a_vel], by rw [d_pos, a_pos],
                by rw [d_tid, a_tid], by rw [d_last, h1]⟩
            · exact absurd hkk hki
          · exact absurd hkk hki

/-- Slots other than the attacker's and the target's are untouched by the
attack block. -/
theorem attackPhase_frame (now : ℝ) (tgt : Option ℕ) (r : List BotS) (i k : ℕ)
    (hki : k ≠ i) (htgt : ∀ j, tgt = some j → k ≠ j) :
    (attackPhase now tgt r i)[k]? = r[k]? := by
  cases tgt with
  | none => rw [attackPhase_no_tgt]
  | some j =>
    have hkj : k ≠ j := htgt j rfl
    cases hi : r[i]? with
    | none => rw [attackPhase_no_me now r i j hi]
    | some me =>
      cases hj : r[j]? with
      | none => rw [attackPhase_no_t now r i j hj]
      | some t =>
        by_cases hg : distOf me.pos t.pos ≤ ATTACK_RANGE ∧
            now - me.lastHitAt ≥ ATTACK_COOLDOWN
        · by_cases hji : j = i
          · subst hji
            have hmt : me = t := by rw [hi] at hj; exact Option.some.inj hj
            subst hmt
            rw [attackPhase_hit_self now r j me hi hg]
            rw [List.getElem?_set_ne (by omega)]
          · rw [attackPhase_hit now r i j me t hji hi hj hg]
            rw [List.getElem?_set_ne (by omega), List.getElem?_set_ne (by omega)]
        · rw [attackPhase_miss now r i j me t hi hj hg]

/-- Slots other than the checked agent's are untouched by the death check. -/
theorem deathPhase_frame (r : List BotS) (i k : ℕ) (hki : k ≠ i) :
    (deathPhase r i)[k]? = r[k]? := by
  cases hi : r[i]? with
  | none => rw [deathPhase_no_me r i hi]
  | some me =>
    by_cases hhp : me.hp ≤ 0
    · rw [deathPhase_dead r i me hi hhp, List.getElem?_set_ne (by omega)]
    · rw [deathPhase_live r i me hi hhp]

/-- A dead agent's record is completely frozen by any other agent's turn, and
its own turn is skipped: dead slots pass through a turn untouched. -/
theorem stepAgent_dead_frame (dt now z : ℝ) (r : List BotS) (i k : ℕ) (b : BotS)
    (hk : r[k]? = some b) (hb : b.alive = false) :
    (stepAgent dt now z r i)[k]? = some b := by
  cases hi : r[i]? with
  | none => rw [stepAgent_no_me dt now z r i hi]; exact hk
  | some me0 =>
    by_cases ha : me0.alive = false
    · rw [stepAgent_of_dead dt now z r i me0 hi ha]; exact hk
    · have ha2 : me0.alive = true := by
        cases hav : me0.alive
        · exact absurd hav ha
        · rfl
      have hki : k ≠ i := by
        intro hcon
        subst hcon
        rw [hi] at hk
        have hbe : me0 = b := Option.some.inj hk
        rw [← hbe, ha2] at hb
        exact Bool.noConfusion hb
      have htgt2 : ∀ j, (turnRes dt z r i me0).1 = some j → k ≠ j := by
        intro j hj hcon
        subst hcon
        obtain ⟨t, hjt, hta⟩ := resolveTarget_slot_alive _ _ k (by
          simpa [turnRes] using hj)
        rw [List.getElem?_set_ne (show i ≠ k by omega)] at hjt
        rw [hk] at hjt
        have hbt : b = t := Option.some.inj hjt
        rw [← hbt, hb] at hta
        exact Bool.noConfusion hta
      rw [stepAgent_live dt now z r i me0 hi ha2]
      rw [deathPhase_frame _ i k hki]
      rw [attackPhase_frame now (turnRes dt z r i me0).1 _ i k hki htgt2]
      rw [List.getElem?_set_ne (show i ≠ k by omega)]
      exact hk

/-- Relation carried across a whole pass of agent turns at a common clock. -/
def passRel (now : ℝ) (b c : BotS) : Prop :=
  c.id = b.id ∧ (c.alive = true → b.alive = true) ∧
  (c.lastHitAt = b.lastHitAt ∨
    (c.lastHitAt = now ∧ now - b.lastHitAt ≥ ATTACK_COOLDOWN))

theorem passRel_refl (now : ℝ) (b : BotS) : passRel now b b :=
  ⟨rfl, fun h => h, Or.inl rfl⟩

theorem passRel_trans (now : ℝ) (a b c : BotS) (h1 : passRel now a b)
    (h2 : passRel now b c) : passRel now a c := by
  obtain ⟨i1, a1, l1⟩ := h1
  obtain ⟨i2, a2, l2⟩ := h2
  refine ⟨i2.trans i1, fun h => a1 (a2 h), ?_⟩
  rcases l1 with e1 | ⟨s1, g1⟩
  · rcases l2 with e2 | ⟨s2, g2⟩
    · exact Or.inl (by rw [e2, e1])
    · exact Or.inr ⟨s2, by rw [e1] at g2; exact g2⟩
  · rcases l2 with e2 | ⟨s2, g2⟩
    · exact Or.inr ⟨by rw [e2, s1], g1⟩
    · exact Or.inr ⟨s2, g1⟩

/-- Any sequence of agent turns at one clock value preserves length and ids,
never revives an agent, and moves cooldown stamps only forward to `now` with
the cooldown elapsed. -/
theorem tickOrder_spec (dt now z : ℝ) (o : List ℕ) (r : List BotS) :
    (tickOrder dt now z o r).length = r.length ∧
    ∀ (k : ℕ) (b : BotS), r[k]? = some b →
      ∃ c, (tickOrder dt now z o r)[k]? = some c ∧ passRel now b c := by
  induction o generalizing r with
  | nil => exact ⟨rfl, fun k b hk => ⟨b, hk, passRel_refl now b⟩⟩
  | cons i o ih =>
    have hstep := stepAgent_spec dt now z r i
    have hrest := ih (stepAgent dt now z r i)
    have hfold : tickOrder dt now z (i :: o) r =
        tickOrder dt now z o (stepAgent dt now z r i) := rfl
    constructor
    · rw [hfold, hrest.1, hstep.1]
    · intro k b hk
      obtain ⟨c1, hc1, hrel1⟩ := hstep.2 k b hk
      obtain ⟨c2, hc2, hrel2⟩ := hrest.2 k c1 hc1
      refine ⟨c2, by rw [hfold]; exact hc2, ?_⟩
      obtain ⟨i1, a1, l1, _⟩ := hrel1
      refine passRel_trans now b c1 c2 ⟨i1, a1, ?_⟩ hrel2
      rcases l1 with e1 | ⟨_, s1, g1⟩
      · exact Or.inl e1
      · exact Or.inr ⟨s1, g1⟩

/-- The per-tick pass instance of `tickOrder_spec`. -/
theorem tick_spec (dt now z : ℝ) (r : List BotS) :
    (tick dt now z r).length = r.length ∧
    ∀ (k : ℕ) (b : BotS), r[k]? = some b →
      ∃ c, (tick dt now z r)[k]? = some c ∧ passRel now b c :=
  tickOrder_spec dt now z (List.range r.length) r

/-- Roster façade of a run of frames: length and ids persist and liveness
only decays, whatever the per-frame clocks are. -/
theorem frames_spec (ps : List (ℝ × ℝ)) (s : ℝ × List BotS) :
    (frames ps s).2.length = s.2.length ∧
    ∀ (k : ℕ) (b : BotS), s.2[k]? = some b →
      ∃ c, (frames ps s).2[k]? = some c ∧ c.id = b.id ∧
        (c.alive = true → b.alive = true) := by
  induction ps generalizing s with
  | nil => exact ⟨rfl, fun k b hk => ⟨b, hk, rfl, fun h => h⟩⟩
  | cons p ps ih =>
    have hone := tick_spec p.1 p.2 (zoneAdvance s.1 p.1).2 s.2
    have hrest := ih (frame p.1 p.2 s)
    have hfold : frames (p :: ps) s = frames ps (frame p.1 p.2 s) := rfl
    have hfr : (frame p.1 p.2 s).2 = tick p.1 p.2 (zoneAdvance s.1 p.1).2 s.2 := rfl
    constructor
    · rw [hfold, hrest.1, hfr, hone.1]
    · intro k b hk
      obtain ⟨c1, hc1, hrel1⟩ := hone.2 k b hk
      obtain ⟨c2, hc2, hid2, hal2⟩ := hrest.2 k c1 (by rw [hfr]; exact hc1)
      exact ⟨c2, by rw [hfold]; exact hc2, hid2.trans hrel1.1,
        fun h => hrel1.2.1 (hal2 h)⟩

-- Structural lemmas of the push variant.

/-- Reading back after a single-slot write (push-variant roster). -/
theorem pset_slot_spec (r : List PBot) (i : ℕ) (v : PBot) (k : ℕ) (b : PBot)
    (hk : r[k]? = some b) :
    ∃ c, (r.set i v)[k]? = some c ∧ ((k = i ∧ c = v) ∨ (k ≠ i ∧ c = b)) := by
  by_cases hki : k = i
  · subst hki
    exact ⟨v, List.getElem?_set_self (getq_lt hk), Or.inl ⟨rfl, rfl⟩⟩
  · exact ⟨b, by rw [List.getElem?_set_ne (by omega)]; exact hk, Or.inr ⟨hki, rfl⟩⟩

/-- Per-slot effect of one queued elimination: everything but `alive` is
untouched, and `alive` can only decay. -/
theorem elimOne_spec (r : List PBot) (i : ℕ) :
    (elimOne r i).length = r.length ∧
    ∀ (k : ℕ) (b : PBot), r[k]? = some b → ∃ c, (elimOne r i)[k]? = some c ∧
      c.id = b.id ∧ c.lastPushAt = b.lastPushAt ∧ c.targetId = b.targetId ∧
      (c.alive = true → b.alive = true) := by
  unfold elimOne
  cases hi : r[i]? with
  | none => exact ⟨rfl, fun k b hk => ⟨b, hk, rfl, rfl, rfl, fun h => h⟩⟩
  | some me =>
    dsimp only
    by_cases ha : me.alive = true
    · rw [if_pos ha]
      refine ⟨by simp, fun k b hk => ?_⟩
      obtain ⟨c, hc, hcase⟩ := pset_slot_spec r i { me with alive := false } k b hk
      refine ⟨c, hc, ?_⟩
      rcases hcase with ⟨hki, hceq⟩ | ⟨hki, hceq⟩
      · subst hki
        have hbme : b = me := by rw [hi] at hk; exact (Option.some.inj hk).symm
        rw [hceq, hbme]
        exact ⟨rfl, rfl, rfl, fun h => Bool.noConfusion h⟩
      · rw [hceq]
        exact ⟨rfl, rfl, rfl, fun h => h⟩
    · rw [if_neg ha]
      exact ⟨rfl, fun k b hk => ⟨b, hk, rfl, rfl, rfl, fun h => h⟩⟩

/-- Per-slot effect of the whole elimination queue. -/
theorem applyElims_spec (elims : List ℕ) (r : List PBot) :
    (applyElims elims r).length = r.length ∧
    ∀ (k : ℕ) (b : PBot), r[k]? = some b → ∃ c, (applyElims elims r)[k]? = some c ∧
      c.id = b.id ∧ c.lastPushAt = b.lastPushAt ∧ c.targetId = b.targetId ∧
      (c.alive = true → b.alive = true) := by
  induction elims generalizing r with
  | nil => exact ⟨rfl, fun k b hk => ⟨b, hk, rfl, rfl, rfl, fun h => h⟩⟩
  | cons e es ih =>
    have hone := elimOne_spec r e
    have hrest := ih (elimOne r e)
    have hfold : applyElims (e :: es) r = applyElims es (elimOne r e) := rfl
    refine ⟨by rw [hfold, hrest.1, hone.1], fun k b hk => ?_⟩
    obtain ⟨c1, hc1, hi1, hl1, ht1, ha1⟩ := hone.2 k b hk
    obtain ⟨c2, hc2, hi2, hl2, ht2, ha2⟩ := hrest.2 k c1 hc1
    exact ⟨c2, by rw [hfold]; exact hc2, hi2.trans hi1, hl2.trans hl1,
      ht2.trans ht1, fun h => ha1 (ha2 h)⟩

theorem pushStep_no_me (now : ℝ) (pos vel : ℕ → Vec3) (r : List PBot) (i : ℕ)
    (hi : r[i]? = none) : pushStepAgent now pos vel r i = r := by
  unfold pushStepAgent
  rw [hi]

theorem pushStep_of_dead (now : ℝ) (pos vel : ℕ → Vec3) (r : List PBot) (i : ℕ)
    (me0 : PBot) (hi : r[i]? = some me0) (ha : me0.alive = false) :
    pushStepAgent now pos vel r i = r := by
  unfold pushStepAgent
  rw [hi]
  dsimp only
  rw [if_pos ha]

theorem pushStep_live_none (now : ℝ) (pos vel : ℕ → Vec3) (r : List PBot) (i : ℕ)
    (me0 : PBot) (hi : r[i]? = some me0) (ha : me0.alive = true)
    (hp : (pResolveTarget pos (pos me0.id) (vel me0.id) r me0).1 = none) :
    pushStepAgent now pos vel r i =
      r.set i { me0 with
        targetId := (pResolveTarget pos (pos me0.id) (vel me0.id) r me0).2 } := by
  unfold pushStepAgent
  rw [hi]
  dsimp only
  rw [if_neg (by simp [ha]), hp]

theorem pushStep_live_miss (now : ℝ) (pos vel : ℕ → Vec3) (r : List PBot) (i : ℕ)
    (me0 : PBot) (tid : ℕ) (hi : r[i]? = some me0) (ha : me0.alive = true)
    (hp : (pResolveTarget pos (pos me0.id) (vel me0.id) r me0).1 = some tid)
    (hg : ¬(distOf (pos me0.id) (pos tid) ≤ PUSH_RANGE ∧
        now - me0.lastPushAt ≥ PUSH_COOLDOWN)) :
    pushStepAgent now pos vel r i =
      r.set i { me0 with
        targetId := (pResolveTarget pos (pos me0.id) (vel me0.id) r me0).2 } := by
  unfold pushStepAgent
  rw [hi]
  dsimp only
  rw [if_neg (by simp [ha]), hp]
  dsimp only
  rw [if_neg hg]

theorem pushStep_live_hit (now : ℝ) (pos vel : ℕ → Vec3) (r : List PBot) (i : ℕ)
    (me0 : PBot) (tid : ℕ) (hi : r[i]? = some me0) (ha : me0.alive = true)
    (hp : (pResolveTarget pos (pos me0.id) (vel me0.id) r me0).1 = some tid)
    (hg : distOf (pos me0.id) (pos tid) ≤ PUSH_RANGE ∧
        now - me0.lastPushAt ≥ PUSH_COOLDOWN) :
    pushStepAgent now pos vel r i =
      r.set i { me0 with
        targetId := (pResolveTarget pos (pos me0.id) (vel me0.id) r me0).2,
        lastPushAt := now } := by
  unfold pushStepAgent
  rw [hi]
  dsimp only
  rw [if_neg (by simp [ha]), hp]
  dsimp only
  rw [if_pos hg]
  have h2 : (r.set i { me0 with
      targetId := (pResolveTarget pos (pos me0.id) (vel me0.id) r me0).2 })[i]? =
      some { me0 with
        targetId := (pResolveTarget pos (pos me0.id) (vel me0.id) r me0).2 } :=
    List.getElem?_set_self (by simpa using getq_lt hi)
  rw [h2]
  dsimp only
  rw [List.set_set]

/-- Master per-slot effect of one push-variant agent turn: only the acting
agent's record changes, its id and liveness are untouched, and its push
stamp moves only to `now` with the push cooldown elapsed. -/
theorem pushStepAgent_spec (now : ℝ) (pos vel : ℕ → Vec3) (r : List PBot) (i : ℕ) :
    (pushStepAgent now pos vel r i).length = r.length ∧
    ∀ (k : ℕ) (b : PBot), r[k]? = some b →
      ∃ c, (pushStepAgent now pos vel r i)[k]? = some c ∧
        c.id = b.id ∧ c.alive = b.alive ∧
        (c.lastPushAt = b.lastPushAt ∨
          (k = i ∧ c.lastPushAt = now ∧ now - b.lastPushAt ≥ PUSH_COOLDOWN)) ∧
        (k ≠ i → c = b) := by
  cases hi : r[i]? with
  | none =>
    rw [pushStep_no_me now pos vel r i hi]
    exact ⟨rfl, fun k b hk => ⟨b, hk, rfl, rfl, Or.inl rfl, fun _ => rfl⟩⟩
  | some me0 =>
    by_cases ha : me0.alive = false
    · rw [pushStep_of_dead now pos vel r i me0 hi ha]
      exact ⟨rfl, fun k b hk => ⟨b, hk, rfl, rfl, Or.inl rfl, fun _ => rfl⟩⟩
    · have ha2 : me0.alive = true := by
        cases hav : me0.alive
        · exact absurd hav ha
        · rfl
      have main : ∀ v : PBot, v.id = me0.id → v.alive = me0.alive →
          (v.lastPushAt = me0.lastPushAt ∨
            (v.lastPushAt = now ∧ now - me0.lastPushAt ≥ PUSH_COOLDOWN)) →
          (∀ (k : ℕ) (b : PBot), r[k]? = some b →
            ∃ c, (r.set i v)[k]? = some c ∧
              c.id = b.id ∧ c.alive = b.alive ∧
              (c.lastPushAt = b.lastPushAt ∨
                (k = i ∧ c.lastPushAt = now ∧ now - b.lastPushAt ≥ PUSH_COOLDOWN)) ∧
              (k ≠ i → c = b)) := by
        intro v hvid hval hvl k b hk
        obtain ⟨c, hc, hcase⟩ := pset_slot_spec r i v k b hk
        refine ⟨c, hc, ?_⟩
        rcases hcase with ⟨hki, hceq⟩ | ⟨hki, hceq⟩
        · subst hki
          have hbme : b = me0 := by rw [hi] at hk; exact (Option.some.inj hk).symm
          subst hbme
          subst hceq
          refine ⟨hvid, hval, ?_, fun hcon => absurd rfl hcon⟩
          rcases hvl with h1 | ⟨h2, h3⟩
          · exact Or.inl h1
          · exact Or.inr ⟨rfl, h2, h3⟩
        · subst hceq
          exact ⟨rfl, rfl, Or.inl rfl, fun _ => rfl⟩
      cases hp : (pResolveTarget pos (pos me0.id) (vel me0.id) r me0).1 with
      | none =>
        rw [pushStep_live_none now pos vel r i me0 hi ha2 hp]
        exact ⟨by simp, main _ rfl rfl (Or.inl rfl)⟩
      | some tid =>
        by_cases hg : distOf (pos me0.id) (pos tid) ≤ PUSH_RANGE ∧
            now - me0.lastPushAt ≥ PUSH_COOLDOWN
        · rw [pushStep_live_hit now pos vel r i me0 tid hi ha2 hp hg]
          exact ⟨by simp, main _ rfl rfl (Or.inr ⟨rfl, hg.2⟩)⟩
        · rw [pushStep_live_miss now pos vel r i me0 tid hi ha2 hp hg]
          exact ⟨by simp, main _ rfl rfl (Or.inl rfl)⟩

/-- Relation carried across a push-variant frame. -/
def pPassRel (now : ℝ) (b c : PBot) : Prop :=
  c.id = b.id ∧ (c.alive = true → b.alive = true) ∧
  (c.lastPushAt = b.lastPushAt ∨
    (c.lastPushAt = now ∧ now - b.lastPushAt ≥ PUSH_COOLDOWN))

/-- Per-slot effect of one whole push-variant tick: eliminations then all
agent turns.  Length and ids persist, liveness only decays, and push stamps
move only to `now` with the cooldown elapsed. -/
theorem pushTick_spec (now : ℝ) (pos vel : ℕ → Vec3) (elims : List ℕ)
    (r : List PBot) :
    (pushTick now pos vel elims r).length = r.length ∧
    ∀ (k : ℕ) (b : PBot), r[k]? = some b →
      ∃ c, (pushTick now pos vel elims r)[k]? = some c ∧ pPassRel now b c := by
  have helim := applyElims_spec elims r
  have hpass : ∀ (o : List ℕ) (r0 : List PBot),
      (o.foldl (pushStepAgent now pos vel) r0).length = r0.length ∧
      ∀ (k : ℕ) (b : PBot), r0[k]? = some b →
        ∃ c, (o.foldl (pushStepAgent now pos vel) r0)[k]? = some c ∧
          pPassRel now b c := by
    intro o
    induction o with
    | nil => exact fun r0 => ⟨rfl, fun k b hk => ⟨b, hk, rfl, fun h => h, Or.inl rfl⟩⟩
    | cons i o ih =>
      intro r0
      have hstep := pushStepAgent_spec now pos vel r0 i
      have hrest := ih (pushStepAgent now pos vel r0 i)
      refine ⟨by rw [List.foldl_cons, hrest.1, hstep.1], fun k b hk => ?_⟩
      obtain ⟨c1, hc1, hi1, ha1, hl1, _⟩ := hstep.2 k b hk
      obtain ⟨c2, hc2, hi2, ha2, hl2⟩ := hrest.2 k c1 hc1
      refine ⟨c2, by rw [List.foldl_cons]; exact hc2, hi2.trans hi1,
        fun h => (ha1 ▸ ha2 h : _), ?_⟩
      rcases hl1 with e1 | ⟨_, s1, g1⟩
      · rcases hl2 with e2 | ⟨s2, g2⟩
        · exact Or.inl (by rw [e2, e1])
        · exact Or.inr ⟨s2, by rw [e1] at g2; exact g2⟩
      · rcases hl2 with e2 | ⟨s2, g2⟩
        · exact Or.inr ⟨by rw [e2, s1], g1⟩
        · exact Or.inr ⟨s2, g1⟩
  have hmain := hpass (List.range (applyElims elims r).length) (applyElims elims r)
  refine ⟨by rw [show pushTick now pos vel elims r =
      (List.range (applyElims elims r).length).foldl (pushStepAgent now pos vel)
        (applyElims elims r) from rfl, hmain.1, helim.1], fun k b hk => ?_⟩
  obtain ⟨c1, hc1, hi1, hl1, ht1, ha1⟩ := helim.2 k b hk
  obtain ⟨c2, hc2, hrel2⟩ := hmain.2 k c1 hc1
  exact ⟨c2, hc2, hrel2.1.trans hi1, fun h => ha1 (hrel2.2.1 h),
    by rcases hrel2.2.2 with e2 | ⟨s2, g2⟩
       · exact Or.inl (e2.trans hl1)
       · exact Or.inr ⟨s2, by rw [hl1] at g2; exact g2⟩⟩

-- Small evaluation lemmas for axis-aligned concrete states.

theorem len2_x (a : ℝ) : len2 a 0 0 = |a| := by
  simp [len2, Real.sqrt_mul_self_eq_abs]

theorem len2_z (a : ℝ) : len2 0 0 a = |a| := by
  simp [len2, Real.sqrt_mul_self_eq_abs]

theorem hypot2_x (a : ℝ) : hypot2 a 0 = |a| := by
  simp [hypot2, Real.sqrt_mul_self_eq_abs]

theorem normv_neg_x (a : ℝ) (h : 0 < a) : normv (-a) 0 0 = ⟨-1, 0, 0⟩ := by
  have hl : len2 (-a) 0 0 = a := by rw [len2_x, abs_neg, abs_of_pos h]
  have hne : a ≠ 0 := ne_of_gt h
  simp only [normv, hl, if_neg hne]
  have hx : -a / a = -1 := by field_simp
  have h0 : (0 : ℝ) / a = 0 := by simp
  rw [hx, h0]

theorem normv_pos_x (a : ℝ) (h : 0 < a) : normv a 0 0 = ⟨1, 0, 0⟩ := by
  have hl : len2 a 0 0 = a := by rw [len2_x, abs_of_pos h]
  simp only [normv, hl, if_neg (ne_of_gt h)]
  have hx : a / a = 1 := by field_simp
  have h0 : (0 : ℝ) / a = 0 := by simp
  rw [hx, h0]

theorem normv_pos_z (a : ℝ) (h : 0 < a) : normv 0 0 a = ⟨0, 0, 1⟩ := by
  have hl : len2 0 0 a = a := by rw [len2_z, abs_of_pos h]
  simp only [normv, hl, if_neg (ne_of_gt h)]
  have hx : a / a = 1 := by field_simp
  have h0 : (0 : ℝ) / a = 0 := by simp
  rw [hx, h0]

theorem normv_zero : normv 0 0 0 = ⟨0, 0, 0⟩ := by
  simp [normv, len2]

/-- A head-on candidate (unit dot product) always passes the FOV test. -/
theorem vis_of_dot_one : Real.arccos (clamp 1 (-1) 1) ≤ FOV * 0.5 := by
  have h1 : clamp 1 (-1) 1 = 1 := by
    unfold clamp
    rw [max_eq_left (by norm_num), min_eq_left (by norm_num)]
  rw [h1, Real.arccos_one, FOV]
  nlinarith [Real.pi_pos]

/-- A perpendicular candidate (zero dot product) also passes the wide FOV
test, since half the field of view exceeds a right angle. -/
theorem vis_of_dot_zero : Real.arccos (clamp 0 (-1) 1) ≤ FOV * 0.5 := by
  have h1 : clamp 0 (-1) 1 = 0 := by
    unfold clamp
    rw [max_eq_left (by norm_num), min_eq_left (by norm_num)]
  rw [h1, Real.arccos_zero, FOV]
  nlinarith [Real.pi_pos]

-- A concrete one-agent state driven through a whole frame: the agent sits at
-- the arena rim (outside the zone radius after one second of shrink), on
-- 5 hp, so the storm drives its hp negative and the death check fires.

/-- Concrete agent outside the safe zone with little hp left. -/
def stormBot : BotS :=
  { id := 0, pos := ⟨32, 0, 0⟩, vel := ⟨0, 0, 0⟩, hp := 5, alive := true,
    lastHitAt := -999, targetId := none }

/-- Zone radius one second into the shrink. -/
noncomputable def zr1 : ℝ := 2269 / 75

theorem zoneAdvance_eval : zoneAdvance 0 1 = (1, zr1) := by
  unfold zoneAdvance clamp zr1 GAME_DURATION ZONE_START_RADIUS ZONE_END_RADIUS
    ARENA_RADIUS
  norm_num

theorem stormBot_hit : stormDamage 1 zr1 stormBot =
    { stormBot with hp := -13 } := by
  unfold stormDamage
  rw [if_pos]
  · have : stormBot.hp - STORM_DPS * 1 = -13 := by
      unfold stormBot STORM_DPS
      norm_num
    rw [this]
  · show len2 stormBot.pos.x 0 stormBot.pos.z > zr1
    have h1 : stormBot.pos.x = 32 := rfl
    have h2 : stormBot.pos.z = 0 := rfl
    rw [h1, h2, len2_x, zr1]
    rw [abs_of_pos (by norm_num)]
    norm_num

/-- The storm agent after the hp deduction. -/
def stormBot1 : BotS :=
  { id := 0, pos := ⟨32, 0, 0⟩, vel := ⟨0, 0, 0⟩, hp := -13, alive := true,
    lastHitAt := -999, targetId := none }

theorem stormBot_hit1 : stormDamage 1 zr1 stormBot = stormBot1 := by
  rw [stormBot_hit]
  rfl

theorem scanStep_self (me : BotS) (idx : ℕ) (acc : Option (ℕ × BotS × ℝ)) :
    scanStep me idx acc me = acc := by
  unfold scanStep
  rw [if_pos (Or.inl rfl)]

theorem sepStep_self (me : BotS) (acc : ℝ × ℝ × ℕ) : sepStep me acc me = acc := by
  unfold sepStep
  rw [if_pos (Or.inl rfl)]

theorem separation_single (me : BotS) : separation [me] me = (0, 0, 0) := by
  show sepStep me (0, 0, 0) me = (0, 0, 0)
  exact sepStep_self me (0, 0, 0)

theorem storm_turnRes : turnRes 1 zr1 [stormBot] 0 stormBot = (none, none) := by
  unfold turnRes
  rw [stormBot_hit1]
  rfl

theorem storm_turnMe2 : turnMe2 1 zr1 [stormBot] 0 stormBot = stormBot1 := by
  unfold turnMe2
  rw [stormBot_hit1, storm_turnRes]
  rfl

theorem accel_storm : accelToward ⟨-3.5, 0, 0⟩ ⟨0, 0, 0⟩ 1 = ⟨-5.2, 0, 0⟩ := by
  have h1 : normv (-3.5 : ℝ) 0 0 = ⟨-1, 0, 0⟩ := by
    have h0 := normv_neg_x 3.5 (by norm_num)
    rw [show (-3.5 : ℝ) = -(3.5 : ℝ) by norm_num]
    exact h0
  have h2 : smul ⟨-1, 0, 0⟩ BOT_SPEED = Vec3.mk (-5.2) 0 0 := by
    unfold smul BOT_SPEED
    norm_num
  have h3 : vsub ⟨-5.2, 0, 0⟩ ⟨0, 0, 0⟩ = Vec3.mk (-5.2) 0 0 := by
    unfold vsub
    norm_num
  unfold accelToward
  dsimp only
  rw [h1, h2, h3]
  dsimp only
  rw [hypot2_x, show |(-5.2 : ℝ)| = 5.2 by norm_num]
  rw [if_neg (show ¬((5.2 : ℝ) > BOT_ACCEL * 1) by unfold BOT_ACCEL; norm_num)]
  unfold vadd
  norm_num

theorem steer_storm : steerMove 1 [stormBot1] none stormBot1 =
    { stormBot1 with vel := ⟨-5.2, 0, 0⟩, pos := ⟨26.8, 0, 0⟩ } := by
  have h1 : normv (-stormBot1.pos.x) 0 (-stormBot1.pos.z) = ⟨-1, 0, 0⟩ := by
    show normv (-(32 : ℝ)) 0 (-(0 : ℝ)) = _
    rw [neg_zero]
    exact normv_neg_x 32 (by norm_num)
  unfold steerMove
  dsimp only
  rw [h1, separation_single]
  dsimp only
  rw [if_neg (show ¬((0 : ℕ) < 0) by omega)]
  rw [show stormBot1.pos.x = (32 : ℝ) from rfl, show stormBot1.pos.z = (0 : ℝ) from rfl,
    len2_x, show |(32 : ℝ)| = 32 by norm_num]
  rw [if_pos (show (32 : ℝ) > ARENA_RADIUS * 0.9 by unfold ARENA_RADIUS; norm_num)]
  have h2 : vadd (smul ⟨-1, 0, 0⟩ 1) (smul ⟨-1, 0, 0⟩ 2.5) = Vec3.mk (-3.5) 0 0 := by
    unfold vadd smul
    norm_num
  rw [h2, show stormBot1.vel = (⟨0, 0, 0⟩ : Vec3) from rfl, accel_storm]
  have h3 : vadd stormBot1.pos (smul ⟨-5.2, 0, 0⟩ 1) = Vec3.mk 26.8 0 0 := by
    show vadd ⟨32, 0, 0⟩ _ = _
    unfold vadd smul
    norm_num
  rw [h3]

/-- The storm agent after steering and integration. -/
def stormBot4 : BotS :=
  { id := 0, pos := ⟨26.8, 0, 0⟩, vel := ⟨-5.2, 0, 0⟩, hp := -13, alive := true,
    lastHitAt := -999, targetId := none }

/-- The storm agent at the end of the frame: moved toward the center, hp
stored at `-13`, dead. -/
def stormFinal : BotS :=
  { id := 0, pos := ⟨26.8, 0, 0⟩, vel := ⟨-5.2, 0, 0⟩, hp := -13, alive := false,
    lastHitAt := -999, targetId := none }

theorem storm_turnMe4 : turnMe4 1 zr1 [stormBot] 0 stormBot = stormBot4 := by
  unfold turnMe4
  rw [storm_turnMe2, storm_turnRes]
  show steerMove 1 ([stormBot].set 0 stormBot1) none stormBot1 = _
  rw [show [stormBot].set 0 stormBot1 = [stormBot1] from rfl]
  rw [steer_storm]
  rfl

theorem tick_storm : tick 1 0 zr1 [stormBot] = [stormFinal] := by
  have hstep : stepAgent 1 0 zr1 [stormBot] 0 = [stormFinal] := by
    rw [stepAgent_live 1 0 zr1 [stormBot] 0 stormBot rfl rfl]
    rw [storm_turnRes, storm_turnMe4]
    rw [show [stormBot].set 0 stormBot4 = [stormBot4] from rfl]
    rw [attackPhase_no_tgt]
    rw [deathPhase_dead [stormBot4] 0 stormBot4 rfl (by
      show stormBot4.hp ≤ 0
      show (-13 : ℝ) ≤ 0
      norm_num)]
    rfl
  show tickOrder 1 0 zr1 (List.range 1) [stormBot] = [stormFinal]
  rw [show List.range 1 = [0] from rfl]
  show stepAgent 1 0 zr1 [stormBot] 0 = [stormFinal]
  exact hstep

theorem frame_storm : frame 1 0 (0, [stormBot]) = (1, [stormFinal]) := by
  unfold frame
  rw [show ((0 : ℝ), [stormBot]).1 = (0 : ℝ) from rfl, zoneAdvance_eval]
  dsimp only
  rw [tick_storm]

-- Generic evaluation helpers for axis-aligned two-agent states.

theorem accel_negx (a : ℝ) (h : 0 < a) :
    accelToward ⟨-a, 0, 0⟩ ⟨0, 0, 0⟩ 1 = ⟨-5.2, 0, 0⟩ := by
  have h1 : normv (-a) 0 0 = ⟨-1, 0, 0⟩ := normv_neg_x a h
  have h2 : smul ⟨-1, 0, 0⟩ BOT_SPEED = Vec3.mk (-5.2) 0 0 := by
    unfold smul BOT_SPEED
    norm_num
  have h3 : vsub ⟨-5.2, 0, 0⟩ ⟨0, 0, 0⟩ = Vec3.mk (-5.2) 0 0 := by
    unfold vsub
    norm_num
  unfold accelToward
  dsimp only
  rw [h1, h2, h3]
  dsimp only
  rw [hypot2_x, show |(-5.2 : ℝ)| = 5.2 by norm_num]
  rw [if_neg (show ¬((5.2 : ℝ) > BOT_ACCEL * 1) by unfold BOT_ACCEL; norm_num)]
  unfold vadd
  norm_num

theorem accel_posx (a : ℝ) (h : 0 < a) :
    accelToward ⟨a, 0, 0⟩ ⟨0, 0, 0⟩ 1 = ⟨5.2, 0, 0⟩ := by
  have h1 : normv a 0 0 = ⟨1, 0, 0⟩ := normv_pos_x a h
  have h2 : smul ⟨1, 0, 0⟩ BOT_SPEED = Vec3.mk 5.2 0 0 := by
    unfold smul BOT_SPEED
    norm_num
  have h3 : vsub ⟨5.2, 0, 0⟩ ⟨0, 0, 0⟩ = Vec3.mk 5.2 0 0 := by
    unfold vsub
    norm_num
  unfold accelToward
  dsimp only
  rw [h1, h2, h3]
  dsimp only
  rw [hypot2_x, show |(5.2 : ℝ)| = 5.2 by norm_num]
  rw [if_neg (show ¬((5.2 : ℝ) > BOT_ACCEL * 1) by unfold BOT_ACCEL; norm_num)]
  unfold vadd
  norm_num

theorem accel_zero : accelToward ⟨0, 0, 0⟩ ⟨0, 0, 0⟩ 1 = ⟨0, 0, 0⟩ := by
  have h2 : smul (normv 0 0 0) BOT_SPEED = Vec3.mk 0 0 0 := by
    rw [normv_zero]
    unfold smul
    norm_num
  have h3 : vsub ⟨0, 0, 0⟩ ⟨0, 0, 0⟩ = Vec3.mk 0 0 0 := by
    unfold vsub
    norm_num
  unfold accelToward
  dsimp only
  rw [h2, h3]
  dsimp only
  rw [show hypot2 0 0 = 0 by rw [hypot2_x]; norm_num]
  rw [if_neg (show ¬((0 : ℝ) > BOT_ACCEL * 1) by unfold BOT_ACCEL; norm_num)]
  unfold vadd
  norm_num

theorem sepStep_dead (me : BotS) (acc : ℝ × ℝ × ℕ) (other : BotS)
    (ha : other.alive = false) : sepStep me acc other = acc := by
  unfold sepStep
  rw [if_pos (Or.inr ha)]

theorem sepStep_far (me : BotS) (acc : ℝ × ℝ × ℕ) (other : BotS)
    (h : ¬(0 < hypot2 (me.pos.x - other.pos.x) (me.pos.z - other.pos.z) ∧
      hypot2 (me.pos.x - other.pos.x) (me.pos.z - other.pos.z) < BOT_SEPARATION)) :
    sepStep me acc other = acc := by
  unfold sepStep
  split
  · rfl
  · dsimp only
    rw [if_neg h]

theorem scanStep_dead (me : BotS) (idx : ℕ) (acc : Option (ℕ × BotS × ℝ))
    (other : BotS) (ha : other.alive = false) : scanStep me idx acc other = acc := by
  unfold scanStep
  rw [if_pos (Or.inr ha)]

theorem scanStep_found (me : BotS) (idx : ℕ) (other : BotS)
    (hguard : ¬(other.id = me.id ∨ other.alive = false))
    (hvis : facingOf me.vel me.pos other.pos ≤ FOV * 0.5) :
    scanStep me idx none other = some (idx, other, distOf me.pos other.pos) := by
  unfold scanStep
  rw [if_neg hguard]
  dsimp only
  rw [if_pos hvis]

/-- Facing angle toward a candidate straight along the negative x-axis from a
standing agent: a right angle, visible under the wide FOV. -/
theorem facing_standing_negx (myVel myPos oPos : Vec3) (hvx : myVel.x = 0)
    (hvz : myVel.z = 0) (hy : oPos.y = myPos.y) (hz : oPos.z = myPos.z)
    (hx : oPos.x < myPos.x) :
    facingOf myVel myPos oPos ≤ FOV * 0.5 := by
  unfold facingOf forwardOf
  rw [if_pos ⟨hvx, hvz⟩]
  have h1 : vsub oPos myPos = Vec3.mk (oPos.x - myPos.x) 0 0 := by
    unfold vsub
    rw [hy, hz]
    norm_num
  rw [h1]
  dsimp only
  have h2 : normv (oPos.x - myPos.x) 0 0 = ⟨-1, 0, 0⟩ := by
    rw [show oPos.x - myPos.x = -(myPos.x - oPos.x) by ring]
    exact normv_neg_x (myPos.x - oPos.x) (by linarith)
  rw [h2]
  have h3 : dot3 ⟨0, 0, 1⟩ ⟨-1, 0, 0⟩ = 0 := by
    unfold dot3
    norm_num
  rw [h3]
  exact vis_of_dot_zero

-- The order-dependence scenario: agent 0 (at the rim, 5 hp, in the storm
-- with zone radius 10) dies during its own turn; agent 1 (at the center,
-- sticky-targeting agent 0) reads agent 0's state mid-tick.  Processing
-- agent 0 first clears agent 1's target; processing agent 1 first keeps it
-- and steers toward agent 0's not-yet-integrated position.

/-- Duel scenario, agent in the storm. -/
def duelA : BotS :=
  { id := 0, pos := ⟨20, 0, 0⟩, vel := ⟨0, 0, 0⟩, hp := 5, alive := true,
    lastHitAt := -999, targetId := none }

/-- Duel scenario, agent at the center with a sticky target on `duelA`. -/
def duelB : BotS :=
  { id := 1, pos := ⟨0, 0, 0⟩, vel := ⟨0, 0, 0⟩, hp := 100, alive := true,
    lastHitAt := -999, targetId := some 0 }

/-- `duelA` after storm damage. -/
def duelA1 : BotS :=
  { id := 0, pos := ⟨20, 0, 0⟩, vel := ⟨0, 0, 0⟩, hp := -13, alive := true,
    lastHitAt := -999, targetId := none }

/-- `duelA` after storm damage and target acquisition. -/
def duelA2 : BotS :=
  { id := 0, pos := ⟨20, 0, 0⟩, vel := ⟨0, 0, 0⟩, hp := -13, alive := true,
    lastHitAt := -999, targetId := some 1 }

/-- `duelA` at the end of its turn (dead). -/
def duelA5 : BotS :=
  { id := 0, pos := ⟨14.8, 0, 0⟩, vel := ⟨-5.2, 0, 0⟩, hp := -13, alive := false,
    lastHitAt := -999, targetId := some 1 }

/-- `duelB` after its turn when agent 0 was processed first (target cleared). -/
def duelB2 : BotS :=
  { id := 1, pos := ⟨0, 0, 0⟩, vel := ⟨0, 0, 0⟩, hp := 100, alive := true,
    lastHitAt := -999, targetId := none }

/-- `duelB` after its turn when it was processed first (target kept, moving). -/
def duelB4 : BotS :=
  { id := 1, pos := ⟨5.2, 0, 0⟩, vel := ⟨5.2, 0, 0⟩, hp := 100, alive := true,
    lastHitAt := -999, targetId := some 0 }

theorem duelA_storm : stormDamage 1 10 duelA = duelA1 := by
  unfold stormDamage
  rw [if_pos]
  · have h1 : duelA.hp - STORM_DPS * 1 = -13 := by
      unfold duelA STORM_DPS
      norm_num
    rw [h1]
    rfl
  · show len2 duelA.pos.x 0 duelA.pos.z > 10
    rw [show duelA.pos.x = (20 : ℝ) from rfl, show duelA.pos.z = (0 : ℝ) from rfl,
      len2_x]
    rw [abs_of_pos (by norm_num)]
    norm_num

theorem duel_resolve_A : resolveTarget [duelA1, duelB] duelA1 = (some 1, some 1) := by
  have hscan : scanGo duelA1 [duelA1, duelB] 0 none =
      some (1, duelB, distOf duelA1.pos duelB.pos) := by
    show scanGo duelA1 [duelB] 1 (scanStep duelA1 0 none duelA1) = _
    rw [scanStep_self]
    show scanStep duelA1 1 none duelB = _
    exact scanStep_found duelA1 1 duelB (by simp [duelA1, duelB])
      (facing_standing_negx duelA1.vel duelA1.pos duelB.pos rfl rfl rfl rfl
        (by show (0 : ℝ) < 20; norm_num))
  unfold resolveTarget
  rw [hscan]
  rfl

/-- `duelA` after steering and integration (still alive). -/
def duelA4 : BotS :=
  { id := 0, pos := ⟨14.8, 0, 0⟩, vel := ⟨-5.2, 0, 0⟩, hp := -13, alive := true,
    lastHitAt := -999, targetId := some 1 }

theorem duel_steer_A : steerMove 1 [duelA2, duelB] (some 1) duelA2 = duelA4 := by
  unfold steerMove
  dsimp only
  rw [show getPosAt [duelA2, duelB] 1 = duelB.pos from rfl]
  rw [show vsub duelB.pos duelA2.pos = Vec3.mk (-20) 0 0 by
    unfold duelB duelA2 vsub
    norm_num]
  have hsep : separation [duelA2, duelB] duelA2 = (0, 0, 0) := by
    show sepStep duelA2 (sepStep duelA2 (0, 0, 0) duelA2) duelB = _
    rw [sepStep_self]
    refine sepStep_far duelA2 (0, 0, 0) duelB ?_
    rw [show duelA2.pos.x - duelB.pos.x = (20 : ℝ) by unfold duelA2 duelB; norm_num,
        show duelA2.pos.z - duelB.pos.z = (0 : ℝ) by unfold duelA2 duelB; norm_num,
        hypot2_x, abs_of_pos (by norm_num : (0:ℝ) < 20)]
    unfold BOT_SEPARATION
    norm_num
  rw [hsep]
  dsimp only
  rw [if_neg (show ¬((0 : ℕ) < 0) by omega)]
  rw [show duelA2.pos.x = (20 : ℝ) from rfl, show duelA2.pos.z = (0 : ℝ) from rfl,
    len2_x, abs_of_pos (by norm_num : (0:ℝ) < 20)]
  rw [if_neg (show ¬((20 : ℝ) > ARENA_RADIUS * 0.9) by unfold ARENA_RADIUS; norm_num)]
  rw [show duelA2.vel = (⟨0, 0, 0⟩ : Vec3) from rfl]
  rw [show (Vec3.mk (-20) 0 0) = (⟨-(20 : ℝ), 0, 0⟩ : Vec3) by norm_num]
  rw [accel_negx 20 (by norm_num)]
  rw [show vadd duelA2.pos (smul ⟨-5.2, 0, 0⟩ 1) = Vec3.mk 14.8 0 0 by
    unfold duelA2 vadd smul
    norm_num]
  rfl

theorem duel_turnRes_A : turnRes 1 10 [duelA, duelB] 0 duelA = (some 1, some 1) := by
  unfold turnRes
  rw [duelA_storm]
  rw [show [duelA, duelB].set 0 duelA1 = [duelA1, duelB] from rfl]
  exact duel_resolve_A

theorem duel_turnMe2_A : turnMe2 1 10 [duelA, duelB] 0 duelA = duelA2 := by
  unfold turnMe2
  rw [duelA_storm, duel_turnRes_A]
  rfl

theorem duel_turnMe4_A : turnMe4 1 10 [duelA, duelB] 0 duelA = duelA4 := by
  unfold turnMe4
  rw [duel_turnMe2_A, duel_turnRes_A]
  rw [show [duelA, duelB].set 0 duelA2 = [duelA2, duelB] from rfl]
  exact duel_steer_A

theorem duel_dist_A4_B : distOf duelA4.pos duelB.pos = 14.8 := by
  unfold distOf
  rw [show vsub duelB.pos duelA4.pos = Vec3.mk (-14.8) 0 0 by
    unfold duelB duelA4 vsub
    norm_num]
  dsimp only
  rw [len2_x]
  norm_num

theorem duel_step_A : stepAgent 1 0 10 [duelA, duelB] 0 = [duelA5, duelB] := by
  rw [stepAgent_live 1 0 10 [duelA, duelB] 0 duelA rfl rfl]
  rw [duel_turnRes_A, duel_turnMe4_A]
  rw [show [duelA, duelB].set 0 duelA4 = [duelA4, duelB] from rfl]
  rw [attackPhase_miss 0 [duelA4, duelB] 0 1 duelA4 duelB rfl rfl (by
    rw [duel_dist_A4_B]
    unfold ATTACK_RANGE
    intro hcon
    have := hcon.1
    norm_num at this)]
  rw [deathPhase_dead [duelA4, duelB] 0 duelA4 rfl (by
    show (-13 : ℝ) ≤ 0
    norm_num)]
  rfl

theorem duelB_no_storm : stormDamage 1 10 duelB = duelB := by
  unfold stormDamage
  rw [if_neg]
  show ¬ len2 duelB.pos.x 0 duelB.pos.z > 10
  rw [show duelB.pos.x = (0 : ℝ) from rfl, show duelB.pos.z = (0 : ℝ) from rfl, len2_x]
  norm_num

theorem duel_resolve_B_after : resolveTarget [duelA5, duelB] duelB = (none, none) := by
  have hscan : scanGo duelB [duelA5, duelB] 0 none = none := by
    show scanGo duelB [duelB] 1 (scanStep duelB 0 none duelA5) = _
    rw [scanStep_dead duelB 0 none duelA5 rfl]
    show scanStep duelB 1 none duelB = _
    exact scanStep_self duelB 1 none
  unfold resolveTarget
  rw [hscan]
  rfl

theorem duel_turnRes_B_after : turnRes 1 10 [duelA5, duelB] 1 duelB = (none, none) := by
  unfold turnRes
  rw [duelB_no_storm]
  rw [show [duelA5, duelB].set 1 duelB = [duelA5, duelB] from rfl]
  exact duel_resolve_B_after

theorem duel_steer_B_after : steerMove 1 [duelA5, duelB2] none duelB2 = duelB2 := by
  unfold steerMove
  dsimp only
  rw [show -duelB2.pos.x = -(0 : ℝ) from rfl, show -duelB2.pos.z = -(0 : ℝ) from rfl,
    neg_zero, normv_zero]
  have hsep : separation [duelA5, duelB2] duelB2 = (0, 0, 0) := by
    show sepStep duelB2 (sepStep duelB2 (0, 0, 0) duelA5) duelB2 = _
    rw [sepStep_dead duelB2 (0, 0, 0) duelA5 rfl]
    exact sepStep_self duelB2 (0, 0, 0)
  rw [hsep]
  dsimp only
  rw [if_neg (show ¬((0 : ℕ) < 0) by omega)]
  rw [show duelB2.pos.x = (0 : ℝ) from rfl, show duelB2.pos.z = (0 : ℝ) from rfl,
    len2_x]
  rw [if_neg (show ¬(|(0 : ℝ)| > ARENA_RADIUS * 0.9) by
    unfold ARENA_RADIUS
    norm_num)]
  rw [show smul ⟨0, 0, 0⟩ 1 = (⟨0, 0, 0⟩ : Vec3) by unfold smul; norm_num]
  rw [show duelB2.vel = (⟨0, 0, 0⟩ : Vec3) from rfl, accel_zero]
  rw [show vadd duelB2.pos (smul ⟨0, 0, 0⟩ 1) = Vec3.mk 0 0 0 by
    unfold duelB2 vadd smul
    norm_num]
  rfl

theorem duel_step_B_after : stepAgent 1 0 10 [duelA5, duelB] 1 = [duelA5, duelB2] := by
  rw [stepAgent_live 1 0 10 [duelA5, duelB] 1 duelB rfl rfl]
  rw [duel_turnRes_B_after]
  have hme2 : turnMe2 1 10 [duelA5, duelB] 1 duelB = duelB2 := by
    unfold turnMe2
    rw [duelB_no_storm, duel_turnRes_B_after]
    rfl
  have hme4 : turnMe4 1 10 [duelA5, duelB] 1 duelB = duelB2 := by
    unfold turnMe4
    rw [hme2, duel_turnRes_B_after]
    rw [show [duelA5, duelB].set 1 duelB2 = [duelA5, duelB2] from rfl]
    exact duel_steer_B_after
  rw [hme4]
  rw [show [duelA5, duelB].set 1 duelB2 = [duelA5, duelB2] from rfl]
  rw [attackPhase_no_tgt]
  rw [deathPhase_live [duelA5, duelB2] 1 duelB2 rfl (by
    show ¬ (100 : ℝ) ≤ 0
    norm_num)]

theorem duel_turnRes_B_first : turnRes 1 10 [duelA, duelB] 1 duelB = (some 0, some 0) := by
  unfold turnRes
  rw [duelB_no_storm]
  rw [show [duelA, duelB].set 1 duelB = [duelA, duelB] from rfl]
  unfold resolveTarget
  rfl

theorem duel_steer_B_first : steerMove 1 [duelA, duelB] (some 0) duelB = duelB4 := by
  unfold steerMove
  dsimp only
  rw [show getPosAt [duelA, duelB] 0 = duelA.pos from rfl]
  rw [show vsub duelA.pos duelB.pos = Vec3.mk 20 0 0 by
    unfold duelA duelB vsub
    norm_num]
  have hsep : separation [duelA, duelB] duelB = (0, 0, 0) := by
    show sepStep duelB (sepStep duelB (0, 0, 0) duelA) duelB = _
    rw [sepStep_far duelB (0, 0, 0) duelA (by
      rw [show duelB.pos.x - duelA.pos.x = (-20 : ℝ) by unfold duelA duelB; norm_num,
          show duelB.pos.z - duelA.pos.z = (0 : ℝ) by unfold duelA duelB; norm_num,
          hypot2_x]
      unfold BOT_SEPARATION
      norm_num)]
    exact sepStep_self duelB (0, 0, 0)
  rw [hsep]
  dsimp only
  rw [if_neg (show ¬((0 : ℕ) < 0) by omega)]
  rw [show duelB.pos.x = (0 : ℝ) from rfl, show duelB.pos.z = (0 : ℝ) from rfl, len2_x]
  rw [if_neg (show ¬(|(0 : ℝ)| > ARENA_RADIUS * 0.9) by
    unfold ARENA_RADIUS
    norm_num)]
  rw [show duelB.vel = (⟨0, 0, 0⟩ : Vec3) from rfl]
  rw [show (Vec3.mk 20 0 0) = (⟨(20 : ℝ), 0, 0⟩ : Vec3) from rfl]
  rw [accel_posx 20 (by norm_num)]
  rw [show vadd duelB.pos (smul ⟨5.2, 0, 0⟩ 1) = Vec3.mk 5.2 0 0 by
    unfold duelB vadd smul
    norm_num]
  rfl

theorem duel_dist_B4_A : distOf duelB4.pos duelA.pos = 14.8 := by
  unfold distOf
  rw [show vsub duelA.pos duelB4.pos = Vec3.mk 14.8 0 0 by
    unfold duelA duelB4 vsub
    norm_num]
  dsimp only
  rw [len2_x]
  norm_num

theorem duel_step_B_first : stepAgent 1 0 10 [duelA, duelB] 1 = [duelA, duelB4] := by
  rw [stepAgent_live 1 0 10 [duelA, duelB] 1 duelB rfl rfl]
  rw [duel_turnRes_B_first]
  have hme2 : turnMe2 1 10 [duelA, duelB] 1 duelB = duelB := by
    unfold turnMe2
    rw [duelB_no_storm, duel_turnRes_B_first]
    rfl
  have hme4 : turnMe4 1 10 [duelA, duelB] 1 duelB = duelB4 := by
    unfold turnMe4
    rw [hme2, duel_turnRes_B_first]
    rw [show [duelA, duelB].set 1 duelB = [duelA, duelB] from rfl]
    exact duel_steer_B_first
  rw [hme4]
  rw [show [duelA, duelB].set 1 duelB4 = [duelA, duelB4] from rfl]
  rw [attackPhase_miss 0 [duelA, duelB4] 1 0 duelB4 duelA rfl rfl (by
    rw [duel_dist_B4_A]
    unfold ATTACK_RANGE
    intro hcon
    have := hcon.1
    norm_num at this)]
  rw [deathPhase_live [duelA, duelB4] 1 duelB4 rfl (by
    show ¬ (100 : ℝ) ≤ 0
    norm_num)]

theorem duel_resolve_A_late : resolveTarget [duelA1, duelB4] duelA1 = (some 1, some 1) := by
  have hscan : scanGo duelA1 [duelA1, duelB4] 0 none =
      some (1, duelB4, distOf duelA1.pos duelB4.pos) := by
    show scanGo duelA1 [duelB4] 1 (scanStep duelA1 0 none duelA1) = _
    rw [scanStep_self]
    show scanStep duelA1 1 none duelB4 = _
    exact scanStep_found duelA1 1 duelB4 (by simp [duelA1, duelB4])
      (facing_standing_negx duelA1.vel duelA1.pos duelB4.pos rfl rfl rfl rfl
        (by show (5.2 : ℝ) < 20; norm_num))
  unfold resolveTarget
  rw [hscan]
  rfl

theorem duel_turnRes_A_late : turnRes 1 10 [duelA, duelB4] 0 duelA = (some 1, some 1) := by
  unfold turnRes
  rw [duelA_storm]
  rw [show [duelA, duelB4].set 0 duelA1 = [duelA1, duelB4] from rfl]
  exact duel_resolve_A_late

theorem duel_steer_A_late : steerMove 1 [duelA2, duelB4] (some 1) duelA2 = duelA4 := by
  unfold steerMove
  dsimp only
  rw [show getPosAt [duelA2, duelB4] 1 = duelB4.pos from rfl]
  rw [show vsub duelB4.pos duelA2.pos = Vec3.mk (-14.8) 0 0 by
    unfold duelB4 duelA2 vsub
    norm_num]
  have hsep : separation [duelA2, duelB4] duelA2 = (0, 0, 0) := by
    show sepStep duelA2 (sepStep duelA2 (0, 0, 0) duelA2) duelB4 = _
    rw [sepStep_self]
    refine sepStep_far duelA2 (0, 0, 0) duelB4 ?_
    rw [show duelA2.pos.x - duelB4.pos.x = (14.8 : ℝ) by unfold duelA2 duelB4; norm_num,
        show duelA2.pos.z - duelB4.pos.z = (0 : ℝ) by unfold duelA2 duelB4; norm_num,
        hypot2_x, abs_of_pos (by norm_num : (0 : ℝ) < 14.8)]
    unfold BOT_SEPARATION
    norm_num
  rw [hsep]
  dsimp only
  rw [if_neg (show ¬((0 : ℕ) < 0) by omega)]
  rw [show duelA2.pos.x = (20 : ℝ) from rfl, show duelA2.pos.z = (0 : ℝ) from rfl,
    len2_x, abs_of_pos (by norm_num : (0 : ℝ) < 20)]
  rw [if_neg (show ¬((20 : ℝ) > ARENA_RADIUS * 0.9) by unfold ARENA_RADIUS; norm_num)]
  rw [show duelA2.vel = (⟨0, 0, 0⟩ : Vec3) from rfl]
  rw [show (Vec3.mk (-14.8) 0 0) = (⟨-(14.8 : ℝ), 0, 0⟩ : Vec3) by norm_num]
  rw [accel_negx 14.8 (by norm_num)]
  rw [show vadd duelA2.pos (smul ⟨-5.2, 0, 0⟩ 1) = Vec3.mk 14.8 0 0 by
    unfold duelA2 vadd smul
    norm_num]
  rfl

theorem duel_dist_A4_B4 : distOf duelA4.pos duelB4.pos = 9.6 := by
  unfold distOf
  rw [show vsub duelB4.pos duelA4.pos = Vec3.mk (-9.6) 0 0 by
    unfold duelB4 duelA4 vsub
    norm_num]
  dsimp only
  rw [len2_x]
  norm_num

theorem duel_step_A_late : stepAgent 1 0 10 [duelA, duelB4] 0 = [duelA5, duelB4] := by
  rw [stepAgent_live 1 0 10 [duelA, duelB4] 0 duelA rfl rfl]
  rw [duel_turnRes_A_late]
  have hme2 : turnMe2 1 10 [duelA, duelB4] 0 duelA = duelA2 := by
    unfold turnMe2
    rw [duelA_storm, duel_turnRes_A_late]
    rfl
  have hme4 : turnMe4 1 10 [duelA, duelB4] 0 duelA = duelA4 := by
    unfold turnMe4
    rw [hme2, duel_turnRes_A_late]
    rw [show [duelA, duelB4].set 0 duelA2 = [duelA2, duelB4] from rfl]
    exact duel_steer_A_late
  rw [hme4]
  rw [show [duelA, duelB4].set 0 duelA4 = [duelA4, duelB4] from rfl]
  rw [attackPhase_miss 0 [duelA4, duelB4] 0 1 duelA4 duelB4 rfl rfl (by
    rw [duel_dist_A4_B4]
    unfold ATTACK_RANGE
    intro hcon
    have := hcon.1
    norm_num at this)]
  rw [deathPhase_dead [duelA4, duelB4] 0 duelA4 rfl (by
    show (-13 : ℝ) ≤ 0
    norm_num)]
  rfl

theorem duel_order01 : tickOrder 1 0 10 [0, 1] [duelA, duelB] = [duelA5, duelB2] := by
  show stepAgent 1 0 10 (stepAgent 1 0 10 [duelA, duelB] 0) 1 = _
  rw [duel_step_A, duel_step_B_after]

theorem duel_order10 : tickOrder 1 0 10 [1, 0] [duelA, duelB] = [duelA5, duelB4] := by
  show stepAgent 1 0 10 (stepAgent 1 0 10 [duelA, duelB] 1) 0 = _
  rw [duel_step_B_first, duel_step_A_late]

/-- The two end states differ (already in the surviving agent's target). -/
theorem duel_results_ne : ([duelA5, duelB2] : List BotS) ≠ [duelA5, duelB4] := by
  intro h
  have hB : duelB2 = duelB4 := by
    have h1 : ([duelB2] : List BotS) = [duelB4] := (List.cons.injEq .. ▸ h).2
    exact (List.cons.injEq .. ▸ h1).1
  have h2 : duelB2.targetId = duelB4.targetId := by rw [hB]
  exact Option.noConfusion (show (none : Option ℕ) = some 0 from h2)

-- Acceleration-bound infrastructure (claim C7).

theorem hypot2_nonneg (a b : ℝ) : 0 ≤ hypot2 a b := Real.sqrt_nonneg _

theorem hypot2_smul (a b c : ℝ) : hypot2 (a * c) (b * c) = |c| * hypot2 a b := by
  unfold hypot2
  rw [show a * c * (a * c) + b * c * (b * c) = c * c * (a * a + b * b) by ring]
  rw [Real.sqrt_mul (mul_self_nonneg c), Real.sqrt_mul_self_eq_abs]

/-- The steering clamp really is a clamp: whatever the desired vector, the
applied planar velocity delta never exceeds `BOT_ACCEL * dt` in magnitude and
the vertical component is untouched.  This is the shared acceleration code of
both the kinematic variant and the `setLinvel` command of the physics
variants. -/
theorem accelToward_bound (desired vel : Vec3) (dt : ℝ) (h : 0 ≤ dt) :
    hypot2 ((accelToward desired vel dt).x - vel.x)
      ((accelToward desired vel dt).z - vel.z) ≤ BOT_ACCEL * dt ∧
    (accelToward desired vel dt).y = vel.y := by
  have hM : 0 ≤ BOT_ACCEL * dt := by
    unfold BOT_ACCEL
    nlinarith
  unfold accelToward
  dsimp only
  constructor
  · set dv := vsub (smul (normv desired.x 0 desired.z) BOT_SPEED) vel with hdv
    set L := hypot2 dv.x dv.z with hL
    have hL0 : 0 ≤ L := hypot2_nonneg dv.x dv.z
    by_cases hc : L > BOT_ACCEL * dt
    · rw [if_pos hc]
      have hLne : ¬ L = 0 := by
        intro h0
        rw [h0] at hc
        exact absurd hM (by linarith)
      rw [if_neg hLne]
      have hcpos : 0 ≤ BOT_ACCEL * dt / L := by positivity
      have hxz : hypot2 ((vadd vel ⟨(smul dv (BOT_ACCEL * dt / L)).x, 0,
          (smul dv (BOT_ACCEL * dt / L)).z⟩).x - vel.x)
          ((vadd vel ⟨(smul dv (BOT_ACCEL * dt / L)).x, 0,
          (smul dv (BOT_ACCEL * dt / L)).z⟩).z - vel.z) =
          hypot2 (dv.x * (BOT_ACCEL * dt / L)) (dv.z * (BOT_ACCEL * dt / L)) := by
        unfold vadd smul
        dsimp only
        rw [show vel.x + dv.x * (BOT_ACCEL * dt / L) - vel.x =
          dv.x * (BOT_ACCEL * dt / L) by ring]
        rw [show vel.z + dv.z * (BOT_ACCEL * dt / L) - vel.z =
          dv.z * (BOT_ACCEL * dt / L) by ring]
      rw [hxz, hypot2_smul, abs_of_nonneg hcpos]
      rw [show BOT_ACCEL * dt / L * hypot2 dv.x dv.z = BOT_ACCEL * dt / L * L from rfl]
      rw [div_mul_cancel₀ _ (by exact hLne)]
    · rw [if_neg hc]
      have hxz : hypot2 ((vadd vel ⟨dv.x, 0, dv.z⟩).x - vel.x)
          ((vadd vel ⟨dv.x, 0, dv.z⟩).z - vel.z) = hypot2 dv.x dv.z := by
        unfold vadd
        dsimp only
        rw [show vel.x + dv.x - vel.x = dv.x by ring,
          show vel.z + dv.z - vel.z = dv.z by ring]
      rw [hxz]
      exact le_of_not_gt hc
  · unfold vadd
    dsimp only
    ring

/-- The roster walk splits around any in-range slot. -/
theorem range_split (i n : ℕ) (h : i < n) :
    List.range n = List.range i ++ i :: List.range' (i + 1) (n - i - 1) := by
  have h1 : List.range' 0 i 1 ++ List.range' i (n - i) 1 = List.range' 0 n 1 := by
    have h0 := List.range'_append 0 i (n - i) 1
    rw [show 0 + 1 * i = i by omega] at h0
    rw [show n - i + i = n by omega] at h0
    exact h0
  have h2 : List.range' i (n - i) 1 = i :: List.range' (i + 1) (n - i - 1) 1 := by
    rw [show n - i = (n - i - 1) + 1 by omega, List.range'_succ]
    rw [show n - i - 1 + 1 - 1 = n - i - 1 by omega]
  rw [List.range_eq_range', ← h1, h2, ← List.range_eq_range']

/-- Velocity (like all motion state) of a slot never processed in a pass is
untouched. -/
theorem tickOrder_untouched (dt now z : ℝ) (o : List ℕ) (r : List BotS) (k : ℕ)
    (hk : k ∉ o) :
    ∀ b, r[k]? = some b → ∃ c, (tickOrder dt now z o r)[k]? = some c ∧
      c.vel = b.vel ∧ c.pos = b.pos := by
  induction o generalizing r with
  | nil => exact fun b hb => ⟨b, hb, rfl, rfl⟩
  | cons i o ih =>
    intro b hb
    have hki : k ≠ i := fun hcon => hk (hcon ▸ List.mem_cons_self i o)
    obtain ⟨c1, hc1, hrel1⟩ := (stepAgent_spec dt now z r i).2 k b hb
    obtain ⟨c2, hc2, hv2, hp2⟩ :=
      ih (stepAgent dt now z r i) (fun hcon => hk (List.mem_cons_of_mem i hcon)) c1 hc1
    obtain ⟨_, _, _, hfr⟩ := hrel1
    obtain ⟨_, hv1, hp1, _, _⟩ := hfr hki
    exact ⟨c2, hc2, hv2.trans hv1, hp2.trans hp1⟩

/-- The velocity an agent's own turn leaves behind is either unchanged (dead
agents) or the acceleration-clamped steering output applied to its incoming
velocity. -/
theorem stepAgent_self_vel (dt now z : ℝ) (r : List BotS) (i : ℕ) (b : BotS)
    (hb : r[i]? = some b) :
    ∃ c, (stepAgent dt now z r i)[i]? = some c ∧
      (c.vel = b.vel ∨ ∃ d, c.vel = accelToward d b.vel dt) := by
  by_cases ha : b.alive = false
  · rw [stepAgent_of_dead dt now z r i b hb ha]
    exact ⟨b, hb, Or.inl rfl⟩
  · have ha2 : b.alive = true := by
      cases hav : b.alive
      · exact absurd hav ha
      · rfl
    have hvel : ∃ d, (turnMe4 dt z r i b).vel = accelToward d b.vel dt := by
      have h1 : (turnMe2 dt z r i b).vel = b.vel := by
        show (stormDamage dt z b).vel = b.vel
        exact stormDamage_vel dt z b
      exact ⟨_, by rw [← h1]; rfl⟩
    rw [stepAgent_live dt now z r i b hb ha2]
    have hset : (r.set i (turnMe4 dt z r i b))[i]? = some (turnMe4 dt z r i b) :=
      List.getElem?_set_self (by simpa using getq_lt hb)
    obtain ⟨c2, hc2, harel⟩ :=
      (attackPhase_spec now (turnRes dt z r i b).1 (r.set i (turnMe4 dt z r i b)) i).2
        i (turnMe4 dt z r i b) hset
    obtain ⟨c3, hc3, hdrel⟩ := (deathPhase_spec _ i).2 i c2 hc2
    refine ⟨c3, hc3, Or.inr ?_⟩
    obtain ⟨d, hd⟩ := hvel
    exact ⟨d, by rw [hdrel.2.2.1, harel.2.2.1, hd]⟩

/-- Across a whole tick, an agent's velocity either stays (dead) or is one
acceleration-clamped update of its incoming velocity. -/
theorem tick_self_vel (dt now z : ℝ) (r : List BotS) (i : ℕ) (b b2 : BotS)
    (hb : r[i]? = some b) (h2 : (tick dt now z r)[i]? = some b2) :
    b2.vel = b.vel ∨ ∃ d, b2.vel = accelToward d b.vel dt := by
  have hin : i < r.length := getq_lt hb
  have hsplit := range_split i r.length hin
  have hni1 : i ∉ List.range i := by simp [List.mem_range]
  have hni2 : i ∉ List.range' (i + 1) (r.length - i - 1) := by
    intro hcon
    obtain ⟨off, _, hoff⟩ := List.mem_range'.mp hcon
    omega
  have htick : tick dt now z r =
      tickOrder dt now z (List.range' (i + 1) (r.length - i - 1))
        (stepAgent dt now z (tickOrder dt now z (List.range i) r) i) := by
    show tickOrder dt now z (List.range r.length) r = _
    rw [hsplit]
    unfold tickOrder
    rw [List.foldl_append]
    rfl
  obtain ⟨c1, hc1, hv1, _⟩ := tickOrder_untouched dt now z (List.range i) r i hni1 b hb
  obtain ⟨c2, hc2, hv2⟩ :=
    stepAgent_self_vel dt now z (tickOrder dt now z (List.range i) r) i c1 hc1
  obtain ⟨c3, hc3, hv3, _⟩ := tickOrder_untouched dt now z
    (List.range' (i + 1) (r.length - i - 1))
    (stepAgent dt now z (tickOrder dt now z (List.range i) r) i) i hni2 c2 hc2
  have hb2c3 : b2 = c3 := by
    rw [htick] at h2
    rw [h2] at hc3
    exact Option.some.inj hc3
  subst hb2c3
  rcases hv2 with he | ⟨d, hd⟩
  · exact Or.inl (by rw [hv3, he, hv1])
  · exact Or.inr ⟨d, by rw [hv3, hd, hv1]⟩

/-- If an agent's own turn kills it, the hp it carries out of the turn is the
raw tested value, at most zero. -/
theorem stepAgent_kill (dt now z : ℝ) (r : List BotS) (i : ℕ) (b c : BotS)
    (hb : r[i]? = some b) (ha : b.alive = true)
    (hc : (stepAgent dt now z r i)[i]? = some c) (hcf : c.alive = false) :
    c.hp ≤ 0 := by
  rw [stepAgent_live dt now z r i b hb ha] at hc
  have hset : (r.set i (turnMe4 dt z r i b))[i]? = some (turnMe4 dt z r i b) :=
    List.getElem?_set_self (by simpa using getq_lt hb)
  obtain ⟨c2, hc2, harel⟩ :=
    (attackPhase_spec now (turnRes dt z r i b).1 (r.set i (turnMe4 dt z r i b)) i).2
      i (turnMe4 dt z r i b) hset
  obtain ⟨c3, hc3, hdrel⟩ := (deathPhase_spec _ i).2 i c2 hc2
  have hcc3 : c = c3 := by
    rw [hc] at hc3
    exact Option.some.inj hc3
  subst hcc3
  have hc2alive : c2.alive = true := by
    rw [harel.2.1]
    rw [turnMe4_alive]
    exact ha
  rcases hdrel.2.2.2.2.2.2 with he | ⟨_, _, hhp⟩
  · rw [he, hc2alive] at hcf
    exact Bool.noConfusion hcf
  · rw [hdrel.2.1]
    exact hhp

/-- Across any pass: an agent alive at the start that is dead at the end
carries out a raw hp of at most zero, and a dead agent's record is frozen. -/
theorem tickOrder_death_hp (dt now z : ℝ) (o : List ℕ) (r : List BotS) (i : ℕ) :
    ∀ b b2, r[i]? = some b → (tickOrder dt now z o r)[i]? = some b2 →
      (b.alive = true → b2.alive = false → b2.hp ≤ 0) ∧
      (b.alive = false → b2 = b) := by
  induction o generalizing r with
  | nil =>
    intro b b2 hb h2
    have hbb : b2 = b := by
      have h3 : (tickOrder dt now z [] r)[i]? = r[i]? := rfl
      rw [h3, hb] at h2
      exact (Option.some.inj h2).symm
    subst hbb
    exact ⟨fun h1 h2 => absurd (h1 ▸ h2) (by simp), fun _ => rfl⟩
  | cons k o ih =>
    intro b b2 hb h2
    obtain ⟨bm, hbm, hrel⟩ := (stepAgent_spec dt now z r k).2 i b hb
    have hIH := ih (stepAgent dt now z r k) bm b2 hbm h2
    constructor
    · intro hba hb2f
      by_cases hbma : bm.alive = true
      · exact hIH.1 hbma hb2f
      · have hbmf : bm.alive = false := by
          cases hv : bm.alive
          · rfl
          · exact absurd hv hbma
        by_cases hik : i = k
        · subst hik
          have hhp := stepAgent_kill dt now z r i b bm hb hba hbm hbmf
          rw [hIH.2 hbmf]
          exact hhp
        · obtain ⟨halive, _, _, _, _⟩ := hrel.2.2.2 hik
          rw [hba] at halive
          exact absurd (halive.trans rfl) hbma
    · intro hbf
      have hfr := stepAgent_dead_frame dt now z r k i b hb hbf
      have hbmb : bm = b := by
        rw [hfr] at hbm
        exact (Option.some.inj hbm).symm
      rw [hIH.2 (hbmb ▸ hbf)]
      exact hbmb

/-- The target id an agent's own (live) turn leaves behind is exactly what
target acquisition returned. -/
theorem stepAgent_self_targetId (dt now z : ℝ) (r : List BotS) (i : ℕ) (b : BotS)
    (hb : r[i]? = some b) (ha : b.alive = true) :
    ∃ c, (stepAgent dt now z r i)[i]? = some c ∧
      c.targetId = (turnRes dt z r i b).2 := by
  rw [stepAgent_live dt now z r i b hb ha]
  have hset : (r.set i (turnMe4 dt z r i b))[i]? = some (turnMe4 dt z r i b) :=
    List.getElem?_set_self (by simpa using getq_lt hb)
  obtain ⟨c2, hc2, harel⟩ :=
    (attackPhase_spec now (turnRes dt z r i b).1 (r.set i (turnMe4 dt z r i b)) i).2
      i (turnMe4 dt z r i b) hset
  obtain ⟨c3, hc3, hdrel⟩ := (deathPhase_spec _ i).2 i c2 hc2
  refine ⟨c3, hc3, ?_⟩
  rw [hdrel.2.2.2.2.1, harel.2.2.2.2.1]
  show (steerMove dt (r.set i (turnMe2 dt z r i b)) (turnRes dt z r i b).1
    (turnMe2 dt z r i b)).targetId = _
  rw [steerMove_targetId]
  rfl

/-- Targets always name a valid roster slot other than the owner, and ids
coincide with slots (claim C10's invariant). -/
def targetOK (r : List BotS) : Prop :=
  ∀ (i : ℕ) (b : BotS), r[i]? = some b →
    b.id = i ∧ ∀ j, b.targetId = some j → j < r.length ∧ j ≠ i

/-- One agent turn preserves the target-validity invariant. -/
theorem stepAgent_targetOK (dt now z : ℝ) (r : List BotS) (i : ℕ)
    (h : targetOK r) : targetOK (stepAgent dt now z r i) := by
  cases hi : r[i]? with
  | none => rw [stepAgent_no_me dt now z r i hi]; exact h
  | some me0 =>
    by_cases hal : me0.alive = false
    · rw [stepAgent_of_dead dt now z r i me0 hi hal]; exact h
    · have ha2 : me0.alive = true := by
        cases hv : me0.alive
        · exact absurd hv hal
        · rfl
      intro k c hc
      have hlen := (stepAgent_spec dt now z r i).1
      have hk : k < r.length := by rw [← hlen]; exact getq_lt hc
      have hbk : r[k]? = some (r[k]) := List.getElem?_eq_getElem hk
      obtain ⟨c2, hc2, hrel⟩ := (stepAgent_spec dt now z r i).2 k (r[k]) hbk
      have hcc2 : c = c2 := by rw [hc] at hc2; exact Option.some.inj hc2
      subst hcc2
      refine ⟨hrel.1.trans (h k (r[k]) hbk).1, ?_⟩
      intro j hj
      rw [hlen]
      by_cases hki : k = i
      · subst hki
        have hme : r[k] = me0 := by
          rw [hi] at hbk
          exact (Option.some.inj hbk).symm
        obtain ⟨c3, hc3, htid⟩ := stepAgent_self_targetId dt now z r k me0
          (hme ▸ hbk) ha2
        have hcc3 : c = c3 := by rw [hc] at hc3; exact Option.some.inj hc3
        subst hcc3
        rw [htid] at hj
        rcases resolveTarget_cases (r.set k (stormDamage dt z me0))
            (stormDamage dt z me0) with h0 | ⟨tj, t, htj, hget, hta, heq⟩ |
            ⟨k2, bb, d, hscan, heq⟩
        · rw [show (turnRes dt z r k me0).2 =
            (resolveTarget (r.set k (stormDamage dt z me0))
              (stormDamage dt z me0)).2 from rfl, h0] at hj
          exact Option.noConfusion hj
        · rw [show (turnRes dt z r k me0).2 =
            (resolveTarget (r.set k (stormDamage dt z me0))
              (stormDamage dt z me0)).2 from rfl, heq] at hj
          have hjt : j = tj := (Option.some.inj hj).symm
          subst hjt
          rw [stormDamage_targetId] at htj
          have hmetid := (h k me0 (hme ▸ hbk)).2 j htj
          exact hmetid
        · rw [show (turnRes dt z r k me0).2 =
            (resolveTarget (r.set k (stormDamage dt z me0))
              (stormDamage dt z me0)).2 from rfl, heq] at hj
          have hjb : j = bb.id := (Option.some.inj hj).symm
          subst hjb
          rcases scanGo_sound (stormDamage dt z me0)
            (r.set k (stormDamage dt z me0)) 0 none k2 bb d hscan with h0 |
            ⟨off, hoff, hk2, hbba, hbbid, _⟩
          · exact Option.noConfusion h0
          · have hk2off : k2 = off := by omega
            subst hk2off
            by_cases hk2k : k2 = k
            · subst hk2k
              rw [List.getElem?_set_self (by simpa using hk)] at hoff
              have hbbs : bb = stormDamage dt z me0 := (Option.some.inj hoff).symm
              rw [hbbs] at hbbid
              exact absurd rfl hbbid
            · rw [List.getElem?_set_ne (fun hcon => hk2k hcon.symm)] at hoff
              have hbb := h k2 bb hoff
              rw [hbb.1]
              refine ⟨by simpa using getq_lt hoff, ?_⟩
              rw [hbb.1] at hbbid
              intro hcon
              subst hcon
              rw [stormDamage_id] at hbbid
              rw [(h k2 me0 (hme ▸ hbk)).1] at hbbid
              exact hbbid rfl
      · obtain ⟨_, _, _, htid, _⟩ := hrel.2.2.2 hki
        rw [htid] at hj
        exact (h k (r[k]) hbk).2 j hj

/-- A whole pass of turns preserves the target-validity invariant. -/
theorem tickOrder_targetOK (dt now z : ℝ) (o : List ℕ) (r : List BotS)
    (h : targetOK r) : targetOK (tickOrder dt now z o r) := by
  induction o generalizing r with
  | nil => exact h
  | cons i o ih => exact ih (stepAgent dt now z r i) (stepAgent_targetOK dt now z r i h)

/-- The spawned roster satisfies the target-validity invariant. -/
theorem initBots_targetOK (spawn : ℕ → ℝ × ℝ) : targetOK (initBots spawn) := by
  intro i b hb
  unfold initBots at hb
  rw [List.getElem?_map] at hb
  cases hr : (List.range BOT_COUNT)[i]? with
  | none => rw [hr] at hb; exact Option.noConfusion hb
  | some m =>
    rw [hr] at hb
    have hm : m = i := by
      have := List.getElem?_range (getq_lt hr)
      rw [List.length_range] at this
      rw [hr] at this
      exact Option.some.inj this
    subst hm
    have hbv : b = initBot m (spawn m).1 (spawn m).2 := (Option.some.inj hb).symm
    subst hbv
    exact ⟨rfl, fun j hj => Option.noConfusion hj⟩

/-- A run of push-variant frames, fed per-frame clock, poses and queued
eliminations. -/
noncomputable def pushFrames (qs : List (ℝ × (ℕ → Vec3) × (ℕ → Vec3) × List ℕ))
    (r : List PBot) : List PBot :=
  qs.foldl (fun acc q => pushTick q.1 q.2.1 q.2.2.1 q.2.2.2 acc) r

/-- Roster façade of a push-variant run: length and ids persist and liveness
only decays. -/
theorem pushFrames_spec (qs : List (ℝ × (ℕ → Vec3) × (ℕ → Vec3) × List ℕ))
    (r : List PBot) :
    (pushFrames qs r).length = r.length ∧
    ∀ (k : ℕ) (b : PBot), r[k]? = some b →
      ∃ c, (pushFrames qs r)[k]? = some c ∧ c.id = b.id ∧
        (c.alive = true → b.alive = true) := by
  induction qs generalizing r with
  | nil => exact ⟨rfl, fun k b hk => ⟨b, hk, rfl, fun h => h⟩⟩
  | cons q qs ih =>
    have hone := pushTick_spec q.1 q.2.1 q.2.2.1 q.2.2.2 r
    have hrest := ih (pushTick q.1 q.2.1 q.2.2.1 q.2.2.2 r)
    have hfold : pushFrames (q :: qs) r =
        pushFrames qs (pushTick q.1 q.2.1 q.2.2.1 q.2.2.2 r) := rfl
    refine ⟨by rw [hfold, hrest.1, hone.1], fun k b hk => ?_⟩
    obtain ⟨c1, hc1, hrel1⟩ := hone.2 k b hk
    obtain ⟨c2, hc2, hid2, hal2⟩ := hrest.2 k c1 hc1
    exact ⟨c2, by rw [hfold]; exact hc2, hid2.trans hrel1.1,
      fun hh => hrel1.2.1 (hal2 hh)⟩

theorem hypot2_zaxis (a : ℝ) : hypot2 0 a = |a| := by
  simp [hypot2, Real.sqrt_mul_self_eq_abs]

/-- A lone push-variant agent. -/
def pushDemo : PBot := { id := 0, alive := true, lastPushAt := -999, targetId := none }

theorem pushTick_demo :
    pushTick 0 (fun _ => ⟨0, 0, 0⟩) (fun _ => ⟨0, 0, 0⟩) [] [pushDemo] = [pushDemo] :=
  rfl

theorem frames_storm : frames [(1, 0)] (0, [stormBot]) = (1, [stormFinal]) := by
  show frame 1 0 (0, [stormBot]) = _
  exact frame_storm

/-- Scan-scenario agent standing at the origin. -/
def scanMe : BotS :=
  { id := 0, pos := ⟨0, 0, 0⟩, vel := ⟨0, 0, 0⟩, hp := 100, alive := true,
    lastHitAt := -999, targetId := none }

/-- Scan-scenario candidate dead ahead of `scanMe`. -/
def scanCand : BotS :=
  { id := 1, pos := ⟨0, 0, 5⟩, vel := ⟨0, 0, 0⟩, hp := 100, alive := true,
    lastHitAt := -999, targetId := none }

theorem scan_demo : scanGo scanMe [scanMe, scanCand] 0 none =
    some (1, scanCand, distOf scanMe.pos scanCand.pos) := by
  show scanGo scanMe [scanCand] 1 (scanStep scanMe 0 none scanMe) = _
  rw [scanStep_self]
  show scanStep scanMe 1 none scanCand = _
  refine scanStep_found scanMe 1 scanCand (by simp [scanMe, scanCand]) ?_
  unfold facingOf forwardOf
  rw [if_pos ⟨rfl, rfl⟩]
  rw [show vsub scanCand.pos scanMe.pos = Vec3.mk 0 0 5 by
    unfold scanCand scanMe vsub
    norm_num]
  dsimp only
  rw [normv_pos_z 5 (by norm_num)]
  rw [show dot3 ⟨0, 0, 1⟩ ⟨0, 0, 1⟩ = 1 by unfold dot3; norm_num]
  exact vis_of_dot_one

theorem duel_targetOK : targetOK [duelA, duelB] := by
  intro i b hb
  match i with
  | 0 =>
    have hbb : b = duelA := by
      have h0 : ([duelA, duelB] : List BotS)[0]? = some duelA := rfl
      rw [h0] at hb
      exact (Option.some.inj hb).symm
    subst hbb
    exact ⟨rfl, fun j hj => Option.noConfusion hj⟩
  | 1 =>
    have hbb : b = duelB := by
      have h0 : ([duelA, duelB] : List BotS)[1]? = some duelB := rfl
      rw [h0] at hb
      exact (Option.some.inj hb).symm
    subst hbb
    refine ⟨rfl, fun j hj => ?_⟩
    have hj0 : j = 0 := by
      have h1 : (some 0 : Option ℕ) = some j := hj
      exact (Option.some.inj h1).symm
    subst hj0
    exact ⟨show (0 : ℕ) < 2 by norm_num, by omega⟩
  | (n + 2) => exact Option.noConfusion hb

-- Claim theorems.

/-- C2: for every agent and every sequence of ticks — runs of kinematic melee
frames as well as runs of push-variant ticks with their queued wall-touch
eliminations — the roster length is fixed and every slot keeps its id, so no
agent records are created or destroyed during the round; and the alive flag
never transitions back from `false` to `true`, so it decays from `true` to
`false` at most once per agent. -/
theorem monotonic_elimination :
    (∀ (ps : List (ℝ × ℝ)) (s : ℝ × List BotS),
      (frames ps s).2.length = s.2.length ∧
      ∀ (k : ℕ) (b b2 : BotS), s.2[k]? = some b →
        (frames ps s).2[k]? = some b2 →
        b2.id = b.id ∧ (b2.alive = true → b.alive = true))
  ∧ (∀ (qs : List (ℝ × (ℕ → Vec3) × (ℕ → Vec3) × List ℕ)) (r : List PBot),
      (pushFrames qs r).length = r.length ∧
      ∀ (k : ℕ) (b b2 : PBot), r[k]? = some b → (pushFrames qs r)[k]? = some b2 →
        b2.id = b.id ∧ (b2.alive = true → b.alive = true)) := by
  constructor
  · intro ps s
    refine ⟨(frames_spec ps s).1, fun k b b2 hb h2 => ?_⟩
    obtain ⟨c, hc, hid, hal⟩ := (frames_spec ps s).2 k b hb
    have hbc : b2 = c := by rw [h2] at hc; exact Option.some.inj hc
    subst hbc
    exact ⟨hid, hal⟩
  · intro qs r
    refine ⟨(pushFrames_spec qs r).1, fun k b b2 hb h2 => ?_⟩
    obtain ⟨c, hc, hid, hal⟩ := (pushFrames_spec qs r).2 k b hb
    have hbc : b2 = c := by rw [h2] at hc; exact Option.some.inj hc
    subst hbc
    exact ⟨hid, hal⟩

/-- Concrete instance of the monotone-elimination façade on both variants. -/
theorem monotonic_elimination_witness :
    (stormFinal.id = stormBot.id ∧ (stormFinal.alive = true → stormBot.alive = true)) ∧
    (pushDemo.id = pushDemo.id ∧ (pushDemo.alive = true → pushDemo.alive = true)) := by
  constructor
  · exact (monotonic_elimination.1 [(1, 0)] (0, [stormBot])).2 0 stormBot stormFinal rfl
      (by rw [show frames [(1, 0)] ((0 : ℝ), [stormBot]) = (1, [stormFinal]) from
        frames_storm]
          rfl)
  · exact (monotonic_elimination.2 [(0, (fun _ => ⟨0, 0, 0⟩), (fun _ => ⟨0, 0, 0⟩), [])]
      [pushDemo]).2 0 pushDemo pushDemo rfl
      (by rw [show pushFrames [(0, (fun _ => ⟨0, 0, 0⟩), (fun _ => ⟨0, 0, 0⟩), [])]
        [pushDemo] = [pushDemo] from pushTick_demo]
          rfl)

/-- C3 counterexample: ticking the same two-agent roster with iteration
order [0, 1] and with order [1, 0] yields different results — the surviving
agent ends with no target in one order and with a kept target (and different
velocity and position) in the other, because deaths and integrated positions
are observed mid-tick rather than through a frozen snapshot. -/
theorem order_independence_counterexample :
    tickOrder 1 0 10 [0, 1] [duelA, duelB] ≠
      tickOrder 1 0 10 [1, 0] [duelA, duelB] := by
  rw [duel_order01, duel_order10]
  exact duel_results_ne

/-- C3 amended: the tick is not order-independent.  Agents are processed
sequentially against the in-place mutated roster — position integration and
death are applied inside the per-agent loop — so there exist a roster state,
a tick clock and two permuted iteration orders (both permutations of the
roster walk) whose tick results differ in more than the documented lowest-id
tie-break. -/
theorem order_dependence_exists :
    ∃ (dt now zoneR : ℝ) (r : List BotS) (o1 o2 : List ℕ),
      o1.Perm o2 ∧ o1 = List.range r.length ∧
      tickOrder dt now zoneR o1 r ≠ tickOrder dt now zoneR o2 r := by
  refine ⟨1, 0, 10, [duelA, duelB], [0, 1], [1, 0], ?_, rfl, ?_⟩
  · decide
  · rw [duel_order01, duel_order10]
    exact duel_results_ne

/-- C4 counterexample: after one tick the storm agent's stored hp is `-13`:
the engine subtracts storm damage from the raw hp and the death check tests
and stores that raw negative value — no clamping to zero happens. -/
theorem hp_clamp_counterexample :
    (tick 1 0 zr1 [stormBot])[0]? = some stormFinal ∧ stormFinal.hp < 0 ∧
    stormFinal.alive = false := by
  refine ⟨by rw [tick_storm]; rfl, ?_, rfl⟩
  show (-13 : ℝ) < 0
  norm_num

/-- C4 amended: hp is never clamped.  Storm and melee damage are applied to
the raw hp value, the death test compares that raw value with zero (the only
[0, 100] clamp in the program is the HUD hp-bar width), and an agent that
dies during a tick carries its raw, possibly negative, hp out of the tick:
whenever an agent flips from alive to dead across a tick, its stored hp is
at most zero. -/
theorem death_tests_raw_hp (dt now z : ℝ) (r : List BotS) (i : ℕ) (b b2 : BotS)
    (hb : r[i]? = some b) (h2 : (tick dt now z r)[i]? = some b2)
    (ha : b.alive = true) (ha2 : b2.alive = false) : b2.hp ≤ 0 :=
  (tickOrder_death_hp dt now z (List.range r.length) r i b b2 hb h2).1 ha ha2

/-- Concrete instance of the raw-hp death rule. -/
theorem death_tests_raw_hp_witness : stormFinal.hp ≤ 0 :=
  death_tests_raw_hp 1 0 zr1 [stormBot] 0 stormBot stormFinal rfl
    (by rw [tick_storm]; rfl) rfl rfl

/-- C5: cooldown respect.  (i) In the melee engine a tick moves an agent's
`lastHitAt` only to the tick clock `now`, and only when `now - lastHitAt ≥
ATTACK_COOLDOWN` held for the stamp carried into the tick — so the
timestamps of successive successful hits by one attacker are at least the
cooldown apart.  (ii) An agent's turn never touches any other agent's stamp:
the cooldown clock is keyed to the attacker, so a just-attacked target can
attack on its own independent clock.  (iii) The same holds for `lastPushAt`
with `PUSH_COOLDOWN` in the push variant. -/
theorem cooldown_respect :
    (∀ (dt now z : ℝ) (r : List BotS) (k : ℕ) (b b2 : BotS),
      r[k]? = some b → (tick dt now z r)[k]? = some b2 →
        b2.lastHitAt = b.lastHitAt ∨
          (b2.lastHitAt = now ∧ now - b.lastHitAt ≥ ATTACK_COOLDOWN))
  ∧ (∀ (dt now z : ℝ) (r : List BotS) (i k : ℕ) (b : BotS), k ≠ i →
      r[k]? = some b → ∃ b2, (stepAgent dt now z r i)[k]? = some b2 ∧
        b2.lastHitAt = b.lastHitAt)
  ∧ (∀ (now : ℝ) (pos vel : ℕ → Vec3) (elims : List ℕ) (r : List PBot)
      (k : ℕ) (b b2 : PBot),
      r[k]? = some b → (pushTick now pos vel elims r)[k]? = some b2 →
        b2.lastPushAt = b.lastPushAt ∨
          (b2.lastPushAt = now ∧ now - b.lastPushAt ≥ PUSH_COOLDOWN)) := by
  refine ⟨?_, ?_, ?_⟩
  · intro dt now z r k b b2 hb h2
    obtain ⟨c, hc, hrel⟩ := (tick_spec dt now z r).2 k b hb
    have hbc : b2 = c := by rw [h2] at hc; exact Option.some.inj hc
    subst hbc
    exact hrel.2.2
  · intro dt now z r i k b hki hb
    obtain ⟨c, hc, hrel⟩ := (stepAgent_spec dt now z r i).2 k b hb
    exact ⟨c, hc, (hrel.2.2.2 hki).2.2.2.2⟩
  · intro now pos vel elims r k b b2 hb h2
    obtain ⟨c, hc, hrel⟩ := (pushTick_spec now pos vel elims r).2 k b hb
    have hbc : b2 = c := by rw [h2] at hc; exact Option.some.inj hc
    subst hbc
    exact hrel.2.2

/-- Concrete instances of cooldown respect on all three parts. -/
theorem cooldown_respect_witness :
    (stormFinal.lastHitAt = stormBot.lastHitAt ∨
      (stormFinal.lastHitAt = 0 ∧ (0 : ℝ) - stormBot.lastHitAt ≥ ATTACK_COOLDOWN)) ∧
    (∃ b2, (stepAgent 1 0 10 [duelA, duelB] 0)[1]? = some b2 ∧
      b2.lastHitAt = duelB.lastHitAt) ∧
    (pushDemo.lastPushAt = pushDemo.lastPushAt ∨
      (pushDemo.lastPushAt = 0 ∧ (0 : ℝ) - pushDemo.lastPushAt ≥ PUSH_COOLDOWN)) :=
  ⟨cooldown_respect.1 1 0 zr1 [stormBot] 0 stormBot stormFinal rfl
      (by rw [tick_storm]; rfl),
   cooldown_respect.2.1 1 0 10 [duelA, duelB] 0 1 duelB (by omega) rfl,
   cooldown_respect.2.2 0 (fun _ => ⟨0, 0, 0⟩) (fun _ => ⟨0, 0, 0⟩) [] [pushDemo]
      0 pushDemo pushDemo rfl (by rw [pushTick_demo]; rfl)⟩

/-- C6: a successful melee attack — target slot held, planar distance within
`ATTACK_RANGE` (positions in this engine share one height, making the 3D
distance the code computes equal to the planar one), attacker cooldown
elapsed — subtracts exactly `ATTACK_DPS * ATTACK_COOLDOWN = 9.9` from the
defender's hp in one burst, stamps `lastHitAt = now` on the attacker only
(the defender's record changes in no other field, all other slots are
untouched), and when the gate fails the attack block changes nothing at all,
so no damage trickles in while waiting out the cooldown. -/
theorem melee_damage_burst (now : ℝ) (r : List BotS) (i j : ℕ) (me t : BotS)
    (hij : i ≠ j) (hi : r[i]? = some me) (hj : r[j]? = some t)
    (hy : me.pos.y = t.pos.y) :
    ATTACK_DPS * ATTACK_COOLDOWN = 9.9 ∧
    (hypot2 (t.pos.x - me.pos.x) (t.pos.z - me.pos.z) ≤ ATTACK_RANGE →
      now - me.lastHitAt ≥ ATTACK_COOLDOWN →
      (attackPhase now (some j) r i)[j]? =
          some { t with hp := t.hp - ATTACK_DPS * ATTACK_COOLDOWN } ∧
        (attackPhase now (some j) r i)[i]? = some { me with lastHitAt := now } ∧
        ∀ k, k ≠ i → k ≠ j → (attackPhase now (some j) r i)[k]? = r[k]?) ∧
    (¬(hypot2 (t.pos.x - me.pos.x) (t.pos.z - me.pos.z) ≤ ATTACK_RANGE ∧
        now - me.lastHitAt ≥ ATTACK_COOLDOWN) →
      attackPhase now (some j) r i = r) := by
  have hdist : distOf me.pos t.pos =
      hypot2 (t.pos.x - me.pos.x) (t.pos.z - me.pos.z) := by
    unfold distOf hypot2 len2 vsub
    dsimp only
    rw [hy]
    congr 1
    ring
  refine ⟨by unfold ATTACK_DPS ATTACK_COOLDOWN; norm_num, ?_, ?_⟩
  · intro hr hcd
    have hg : distOf me.pos t.pos ≤ ATTACK_RANGE ∧
        now - me.lastHitAt ≥ ATTACK_COOLDOWN := ⟨by rw [hdist]; exact hr, hcd⟩
    rw [attackPhase_hit now r i j me t (fun hcon => hij hcon.symm) hi hj hg]
    refine ⟨?_, ?_, ?_⟩
    · rw [List.getElem?_set_ne hij]
      rw [List.getElem?_set_self (by simpa using getq_lt hj)]
      rfl
    · exact List.getElem?_set_self (by simpa using getq_lt hi)
    · intro k hki hkj
      rw [List.getElem?_set_ne (fun hcon => hki hcon.symm),
        List.getElem?_set_ne (fun hcon => hkj hcon.symm)]
  · intro hng
    refine attackPhase_miss now r i j me t hi hj ?_
    rw [hdist]
    exact hng

/-- Attack-scenario attacker at the origin. -/
def atkMe : BotS :=
  { id := 0, pos := ⟨0, 0, 0⟩, vel := ⟨0, 0, 0⟩, hp := 100, alive := true,
    lastHitAt := -999, targetId := some 1 }

/-- Attack-scenario defender in range. -/
def defT : BotS :=
  { id := 1, pos := ⟨0, 0, 1⟩, vel := ⟨0, 0, 0⟩, hp := 100, alive := true,
    lastHitAt := -999, targetId := none }

/-- Concrete instance of the damage burst. -/
theorem melee_damage_burst_witness :
    ATTACK_DPS * ATTACK_COOLDOWN = 9.9 ∧
    (attackPhase 0 (some 1) [atkMe, defT] 0)[1]? =
      some { defT with hp := defT.hp - ATTACK_DPS * ATTACK_COOLDOWN } ∧
    (attackPhase 0 (some 1) [atkMe, defT] 0)[0]? =
      some { atkMe with lastHitAt := 0 } := by
  have h := melee_damage_burst 0 [atkMe, defT] 0 1 atkMe defT (by omega) rfl rfl rfl
  have hg := h.2.1
    (by
      show hypot2 (defT.pos.x - atkMe.pos.x) (defT.pos.z - atkMe.pos.z) ≤ ATTACK_RANGE
      rw [show defT.pos.x - atkMe.pos.x = (0 : ℝ) by unfold defT atkMe; norm_num,
        show defT.pos.z - atkMe.pos.z = (1 : ℝ) by unfold defT atkMe; norm_num,
        hypot2_zaxis]
      unfold ATTACK_RANGE
      norm_num)
    (by
      show (0 : ℝ) - atkMe.lastHitAt ≥ ATTACK_COOLDOWN
      rw [show atkMe.lastHitAt = (-999 : ℝ) from rfl]
      unfold ATTACK_COOLDOWN
      norm_num)
  exact ⟨h.1, hg.1, hg.2.1⟩

/-- C7: the magnitude of the velocity change applied to any agent in one
tick never exceeds `BOT_ACCEL * dt` — the delta toward the target velocity
is clamped to that bound and the vertical velocity component is never
touched.  The second part states the bound directly for the shared
acceleration-clamp code (`accelToward`), which is also the formula behind
the physics variants' `setLinvel` command. -/
theorem acceleration_bound :
    (∀ (dt now z : ℝ) (r : List BotS) (i : ℕ) (b b2 : BotS), 0 ≤ dt →
      r[i]? = some b → (tick dt now z r)[i]? = some b2 →
        hypot2 (b2.vel.x - b.vel.x) (b2.vel.z - b.vel.z) ≤ BOT_ACCEL * dt ∧
        b2.vel.y = b.vel.y)
  ∧ (∀ (desired vel : Vec3) (dt : ℝ), 0 ≤ dt →
      hypot2 ((accelToward desired vel dt).x - vel.x)
          ((accelToward desired vel dt).z - vel.z) ≤ BOT_ACCEL * dt ∧
        (accelToward desired vel dt).y = vel.y) := by
  refine ⟨?_, fun desired vel dt h => accelToward_bound desired vel dt h⟩
  intro dt now z r i b b2 hdt hb h2
  rcases tick_self_vel dt now z r i b b2 hb h2 with he | ⟨d, hd⟩
  · rw [he]
    refine ⟨?_, rfl⟩
    rw [sub_self, sub_self]
    rw [show hypot2 0 0 = 0 by rw [hypot2_x]; norm_num]
    unfold BOT_ACCEL
    nlinarith
  · rw [hd]
    exact accelToward_bound d b.vel dt hdt

/-- Concrete instance of the acceleration bound on both parts. -/
theorem acceleration_bound_witness :
    (hypot2 (stormFinal.vel.x - stormBot.vel.x) (stormFinal.vel.z - stormBot.vel.z) ≤
        BOT_ACCEL * 1 ∧ stormFinal.vel.y = stormBot.vel.y) ∧
    (hypot2 ((accelToward ⟨1, 2, 3⟩ ⟨4, 5, 6⟩ 2).x - (4 : ℝ))
        ((accelToward ⟨1, 2, 3⟩ ⟨4, 5, 6⟩ 2).z - (6 : ℝ)) ≤ BOT_ACCEL * 2 ∧
      (accelToward ⟨1, 2, 3⟩ ⟨4, 5, 6⟩ 2).y = (5 : ℝ)) :=
  ⟨acceleration_bound.1 1 0 zr1 [stormBot] 0 stormBot stormFinal (by norm_num) rfl
      (by rw [tick_storm]; rfl),
   acceleration_bound.2 ⟨1, 2, 3⟩ ⟨4, 5, 6⟩ 2 (by norm_num)⟩

/-- A candidate returned by the scan sits at the reported roster slot, is
alive, is not the scanner, and passed the FOV test at selection time. -/
theorem scan_found_sound (me : BotS) (r : List BotS) (k : ℕ) (b : BotS) (d : ℝ)
    (h : scanGo me r 0 none = some (k, b, d)) :
    r[k]? = some b ∧ b.alive = true ∧ b.id ≠ me.id ∧
    facingOf me.vel me.pos b.pos ≤ FOV * 0.5 := by
  rcases scanGo_sound me r 0 none k b d h with h0 | ⟨off, h1, h2, h3, h4, h5⟩
  · exact Option.noConfusion h0
  · have hoff : k = off := by omega
    subst hoff
    exact ⟨h1, h3, h4, h5⟩

/-- C8: FOV bound at selection time.  (i) Any candidate the scan returns
passed the visibility test: the angle between the selector's forward heading
(derived from its horizontal velocity, defaulting to the fixed axis ⟨0,0,1⟩
when that velocity is zero, as `forwardOf` prescribes) and the planar
direction to the candidate is at most half the field of view.  (ii) Whenever
target acquisition assigns a target that is not sticky-retained — the
previous `targetId` was absent, dangling, or named a dead agent — the
assignment came from the scan, so the new target satisfies that FOV bound. -/
theorem fov_bound :
    (∀ (me : BotS) (r : List BotS) (k : ℕ) (b : BotS) (d : ℝ),
      scanGo me r 0 none = some (k, b, d) →
        r[k]? = some b ∧ b.alive = true ∧ b.id ≠ me.id ∧
        facingOf me.vel me.pos b.pos ≤ FOV * 0.5)
  ∧ (∀ (r : List BotS) (me : BotS) (k j : ℕ),
      resolveTarget r me = (some k, some j) →
      (∀ tj, me.targetId = some tj → ∀ t, r[tj]? = some t → t.alive = false) →
      ∃ b d, scanGo me r 0 none = some (k, b, d) ∧ b.id = j ∧ r[k]? = some b ∧
        b.alive = true ∧ facingOf me.vel me.pos b.pos ≤ FOV * 0.5) := by
  refine ⟨scan_found_sound, ?_⟩
  intro r me k j heq hsticky
  rcases resolveTarget_cases r me with h0 | ⟨tj, t, htj, hget, hta, heq2⟩ |
      ⟨k2, b, d, hscan, heq2⟩
  · rw [h0] at heq
    simp at heq
  · have hdead := hsticky tj htj t hget
    rw [hta] at hdead
    exact Bool.noConfusion hdead
  · rw [heq2] at heq
    simp only [Prod.mk.injEq, Option.some.injEq] at heq
    obtain ⟨hk, hj⟩ := heq
    subst hk
    obtain ⟨hslot, halive, _, hvis⟩ := scan_found_sound me r k2 b d hscan
    exact ⟨b, d, hscan, hj, hslot, halive, hvis⟩

/-- Concrete instance of the FOV bound. -/
theorem fov_bound_witness :
    [scanMe, scanCand][1]? = some scanCand ∧ scanCand.alive = true ∧
    scanCand.id ≠ scanMe.id ∧
    facingOf scanMe.vel scanMe.pos scanCand.pos ≤ FOV * 0.5 :=
  fov_bound.1 scanMe [scanMe, scanCand] 1 scanCand
    (distOf scanMe.pos scanCand.pos) scan_demo

/-- C9 counterexample: normalizing the zero vector returns the zero vector,
whose length is 0 — not a unit vector along a fixed reference axis, so the
claim that `norm` maps the zero input to a fixed unit reference direction is
false at the input (0, 0, 0). -/
theorem norm_zero_counterexample :
    normv 0 0 0 = ⟨0, 0, 0⟩ ∧
    len2 (normv 0 0 0).x (normv 0 0 0).y (normv 0 0 0).z ≠ 1 := by
  refine ⟨normv_zero, ?_⟩
  rw [normv_zero]
  show len2 0 0 0 ≠ 1
  rw [len2_x]
  norm_num

/-- C9 amended: every normalization is guarded against division by zero —
the divisor is 1 when the length is 0 and the (nonzero) length otherwise, so
the zero vector passes through unchanged as the zero vector rather than
producing NaN; the fixed unit reference direction ⟨0, 0, 1⟩ is supplied by
the separate forward-heading default when the horizontal velocity is zero,
not by `norm` itself. -/
theorem norm_guard (x y z : ℝ) :
    (if len2 x y z = 0 then (1 : ℝ) else len2 x y z) ≠ 0 ∧
    (len2 x y z = 0 → normv x y z = ⟨x, y, z⟩) ∧
    normv 0 0 0 = ⟨0, 0, 0⟩ ∧
    forwardOf ⟨0, 0, 0⟩ = ⟨0, 0, 1⟩ := by
  refine ⟨?_, ?_, normv_zero, ?_⟩
  · by_cases hc : len2 x y z = 0
    · rw [if_pos hc]
      norm_num
    · rw [if_neg hc]
      exact hc
  · intro h0
    unfold normv
    dsimp only
    rw [if_pos h0, div_one, div_one, div_one]
  · unfold forwardOf
    rw [if_pos ⟨rfl, rfl⟩]

/-- Concrete instance of the normalization guard. -/
theorem norm_guard_witness :
    (if len2 3 4 0 = 0 then (1 : ℝ) else len2 3 4 0) ≠ 0 ∧
    (len2 3 4 0 = 0 → normv 3 4 0 = ⟨3, 4, 0⟩) ∧
    normv 0 0 0 = ⟨0, 0, 0⟩ ∧
    forwardOf ⟨0, 0, 0⟩ = ⟨0, 0, 1⟩ :=
  norm_guard 3 4 0

/-- C10: target references are always valid.  The spawned roster satisfies
the invariant that every agent's id equals its slot and every non-null
`targetId` names a strictly in-bounds slot different from the owner — so the
`next[me.targetId]` lookup is in bounds and no agent targets itself — and
every tick preserves that invariant, so it holds at the end of every tick of
the round. -/
theorem target_validity :
    (∀ spawn : ℕ → ℝ × ℝ, targetOK (initBots spawn))
  ∧ (∀ (dt now z : ℝ) (r : List BotS), targetOK r → targetOK (tick dt now z r)) :=
  ⟨initBots_targetOK,
   fun dt now z r h => tickOrder_targetOK dt now z (List.range r.length) r h⟩

/-- Concrete instance of target validity. -/
theorem target_validity_witness :
    targetOK (initBots fun _ => (0, 0)) ∧ targetOK (tick 1 0 10 [duelA, duelB]) :=
  ⟨target_validity.1 (fun _ => (0, 0)),
   target_validity.2 1 0 10 [duelA, duelB] duel_targetOK⟩
